import Mathlib

/-!
# Online-judge backend: the submission evaluator

A shallow embedding of `backend/internal/services/evaluator.go`, of the
model types it uses (`backend/internal/models`), and of the way a submission
reaches it (`backend/internal/handlers/submission.go`,
`backend/pkg/broker/nats.go`).

Conventions of the embedding.

* Go `string` values are Lean `String`s, compared character by character.
* Go `uint` identifiers are `Nat`; Go `int` quantities (milliseconds,
  kilobytes) are `Int`.
* Everything outside the program (file system calls, the compiler
  toolchain, the processes started for test cases) is described by an
  environment `Env` of oracles, so that every theorem quantifies over every
  behaviour of the outside world.
* The mutable outside state (files, database rows, the log of effects) is an
  explicit `World` value threaded through the functions.
* Calls on the store (`Find`, `Create`, `Save`) act on the explicit state;
  their errors, which the code ignores, are not modelled.
* `os.RemoveAll` can fail: the oracle `removeFails` names the entries it
  cannot remove, and these stay together with the directories above them;
  the error it returns is dropped by the caller.
* A Go run-time panic is the `Except.error` case of the result; deferred
  calls still run.
-/

namespace OnlineJudge

/-! ## Model types (`internal/models`) -/

/-- The fields of `models.Problem` the evaluator reads. -/
structure Problem where
  ID : Nat := 0
  TimeLimit : Int := 0
  MemoryLimit : Int := 0
  deriving DecidableEq, Repr

/-- The record `models.TestCase`. -/
structure TestCase where
  ID : Nat := 0
  ProblemID : Nat := 0
  Input : String := ""
  Output : String := ""
  IsSample : Bool := false
  deriving DecidableEq, Repr

/-- The record `models.Submission`, with the `Error` field that
`Evaluate` assigns. -/
structure Submission where
  ID : Nat := 0
  UserID : Nat := 0
  ProblemID : Nat := 0
  Language : String := ""
  Code : String := ""
  Status : String := ""
  TimeUsed : Int := 0
  MemoryUsed : Int := 0
  Error : String := ""
  Problem : Problem := {}
  deriving DecidableEq, Repr

/-- The record `models.SubmissionResult` as handed to the store; the primary
key and the time stamps are assigned by the store. -/
structure SubmissionResult where
  SubmissionID : Nat := 0
  TestCaseID : Nat := 0
  Status : String := ""
  TimeUsed : Int := 0
  MemoryUsed : Int := 0
  Error : String := ""
  deriving DecidableEq, Repr

/-- The record `services.EvaluationResult`. -/
structure EvaluationResult where
  Status : String := ""
  TimeUsed : Int := 0
  MemoryUsed : Int := 0
  Error : String := ""
  deriving DecidableEq, Repr

/-- The record `services.Evaluator`. -/
structure Evaluator where
  workDir : String
  deriving DecidableEq, Repr

/-! ## Library functions of `path/filepath` (Unix) -/

/-- Split a path at every separator `/`. -/
def splitSep : List Char → List (List Char)
  | [] => [[]]
  | c :: cs =>
    if c = '/' then [] :: splitSep cs
    else
      match splitSep cs with
      | [] => [[c]]
      | x :: xs => (c :: x) :: xs

/-- One element of a path processed by `filepath.Clean`; `stack` holds the
elements kept so far, the last one first. -/
def cleanStep (rooted : Bool) (stack : List (List Char)) (el : List Char) :
    List (List Char) :=
  if el = [] ∨ el = ['.'] then stack
  else if el = ['.', '.'] then
    match stack with
    | [] => if rooted then [] else [el]
    | top :: rest =>
      if top = ['.', '.'] then (if rooted then stack else el :: stack) else rest
  else el :: stack

/-- Put the separator between the elements of a path. -/
def joinSep : List (List Char) → List Char
  | [] => []
  | [x] => x
  | x :: y :: rest => x ++ '/' :: joinSep (y :: rest)

/-- The function `filepath.Clean` on characters. -/
def cleanChars (path : List Char) : List Char :=
  match path with
  | [] => ['.']
  | c :: _ =>
    let rooted : Bool := c = '/'
    let stack := (splitSep path).foldl (cleanStep rooted) []
    let body := joinSep stack.reverse
    if rooted then '/' :: body
    else if body = [] then ['.'] else body

/-- The function `filepath.Clean`. -/
def Clean (path : String) : String := ⟨cleanChars path.data⟩

/-- The function `filepath.Join`: leading empty elements are skipped, the
rest is joined with the separator and cleaned. -/
def Join : List String → String
  | [] => ""
  | e :: rest =>
    if e = "" then Join rest
    else Clean ⟨joinSep ((e :: rest).map String.data)⟩

/-- Drop the separators at the end of a path. -/
def stripTrailingSep (path : List Char) : List Char :=
  (path.reverse.dropWhile (fun c => c = '/')).reverse

/-- The characters after the last separator. -/
def lastElement (path : List Char) : List Char :=
  (path.reverse.takeWhile (fun c => c ≠ '/')).reverse

/-- The function `filepath.Base`. -/
def Base (path : String) : String :=
  if path = "" then "."
  else
    let p := lastElement (stripTrailingSep path.data)
    if p = [] then "/" else ⟨p⟩

/-- The function `filepath.Dir`: everything up to the last separator,
cleaned. -/
def Dir (path : String) : String :=
  Clean ⟨(path.data.reverse.dropWhile (fun c => c ≠ '/')).reverse⟩

/-- The Go slice expression `s[:n]`; a negative or too large bound
panics. -/
def sliceTo (s : String) (n : Int) : Except String String :=
  if n < 0 ∨ (s.length : Int) < n then
    .error "runtime error: slice bounds out of range"
  else .ok ⟨s.data.take n.toNat⟩

/-! ## The outside world -/

/-- What `cmd.Run()` of a toolchain command does: the error it returns (its
`Error()` text, `none` for `nil`), what the tool wrote to its standard error
stream, and the paths it created. -/
structure ToolOutcome where
  err : Option String := none
  stderr : String := ""
  created : List String := []
  deriving DecidableEq, Repr

/-- How the race in `runTestCase` between the process and the deadline
ends. -/
inductive ProcOutcome where
  /-- The call `cmd.Start()` returned an error with this text. -/
  | startError (msg : String)
  /-- The process was reaped before the deadline: the error of `cmd.Wait()`
  (`none` for exit status zero), the captured output streams and the elapsed
  milliseconds. -/
  | exited (waitErr : Option String) (stdout stderr : String) (elapsedMs : Int)
  /-- The timer fired first, after this many milliseconds of wall-clock
  time. -/
  | deadline (elapsedMs : Int)
  deriving DecidableEq, Repr

/-- The behaviour of the outside world, as oracles. -/
structure Env where
  /-- Whether `os.MkdirAll` of the path succeeds. -/
  mkdirOk : String → Bool
  /-- The error text of `os.WriteFile` for a path and contents, `none` when
  the write succeeds. -/
  writeErr : String → String → Option String
  /-- The run of a toolchain command line. -/
  tool : List String → ToolOutcome
  /-- The outcome of the `n`-th process started for a test case, for its
  command line and standard input. -/
  proc : Nat → List String → String → ProcOutcome
  /-- The paths created by the `n`-th process started for a test case. -/
  procCreated : Nat → List String
  /-- For the call `os.RemoveAll(path)`, whether the entry `q` at or below
  `path` cannot be removed (permission denied, say). -/
  removeFails : String → String → Bool

/-- A file system call made by the evaluator. -/
inductive FsOp where
  | mkdirAll (path : String)
  | writeFile (path data : String)
  | removeAll (path : String)
  deriving DecidableEq, Repr

/-- The state of the outside world. -/
structure World where
  /-- The paths that exist. -/
  fs : List String := []
  /-- The file system calls made, oldest first. -/
  fsLog : List FsOp := []
  /-- The toolchain command lines run, oldest first. -/
  toolRuns : List (List String) := []
  /-- The command lines and inputs of the processes started for test
  cases, oldest first. -/
  started : List (List String × String) := []
  /-- The indices (in `started`) of the processes whose group was killed. -/
  killed : List Nat := []
  /-- The table of test cases. -/
  testCases : List TestCase := []
  /-- The rows created in the table of submission results, oldest first. -/
  results : List SubmissionResult := []
  /-- The submissions passed to `Save`, oldest first. -/
  saved : List Submission := []
  deriving DecidableEq, Repr

/-- Whether path `q` lies strictly below directory `p`. -/
def below (p q : String) : Bool :=
  (p.data ++ ['/']).isPrefixOf q.data

/-- The call `os.MkdirAll(path, 0755)`; its error is ignored by the
caller. -/
def MkdirAll (env : Env) (w : World) (path : String) : World :=
  { w with
    fs := if env.mkdirOk path ∧ path ∉ w.fs then w.fs ++ [path] else w.fs
    fsLog := w.fsLog ++ [.mkdirAll path] }

/-- The call `os.WriteFile(path, data, 0644)`. -/
def WriteFile (env : Env) (w : World) (path data : String) :
    World × Option String :=
  match env.writeErr path data with
  | some err => ({ w with fsLog := w.fsLog ++ [.writeFile path data] }, some err)
  | none =>
    ({ w with
       fs := if path ∈ w.fs then w.fs else w.fs ++ [path]
       fsLog := w.fsLog ++ [.writeFile path data] }, none)

/-- The entries at or below `path` that the call `os.RemoveAll(path)` cannot
remove. -/
def stuck (env : Env) (w : World) (path : String) : List String :=
  w.fs.filter (fun q => (q = path ∨ below path q) ∧ env.removeFails path q)

/-- The call `os.RemoveAll(path)`, whose error the caller drops: the path
and everything below it stop existing, except the entries that cannot be
removed and the directories above them. -/
def RemoveAll (env : Env) (w : World) (path : String) : World :=
  { w with
    fs := w.fs.filter (fun q =>
      ¬ (q = path ∨ below path q) ∨ (stuck env w path).any (fun s => s = q ∨ below q s))
    fsLog := w.fsLog ++ [.removeAll path] }

/-- The call `exec.Command(argv...).Run()`: standard error is not
captured. -/
def runTool (env : Env) (w : World) (argv : List String) : World × Option String :=
  let o := env.tool argv
  ({ w with fs := w.fs ++ o.created, toolRuns := w.toolRuns ++ [argv] }, o.err)

/-- The query `DB.Where("problem_id = ?", id).Find(&testCases)`. -/
def findTestCases (w : World) (problemID : Nat) : List TestCase :=
  w.testCases.filter (fun tc => tc.ProblemID = problemID)

/-- The call `DB.Create(&result)`. -/
def dbCreate (w : World) (r : SubmissionResult) : World :=
  { w with results := w.results ++ [r] }

/-- The call `DB.Save(submission)`. -/
def dbSave (w : World) (s : Submission) : World :=
  { w with saved := w.saved ++ [s] }

/-! ## The evaluator (`internal/services/evaluator.go`) -/

/-- The function `getSourceFileName`. -/
def getSourceFileName (language : String) : String :=
  match language with
  | "cpp" => "main.cpp"
  | "java" => "Main.java"
  | "python" => "main.py"
  | _ => "main"

/-- The method `Evaluator.compile`; the result is the error text, `none`
for `nil`. -/
def compile (env : Env) (w : World) (language codeFile : String) :
    World × Option String :=
  match language with
  | "cpp" => runTool env w ["g++", "-std=c++17", "-O2", codeFile, "-o", codeFile ++ ".out"]
  | "java" => runTool env w ["javac", codeFile]
  | "python" => (w, none)
  | _ => (w, some ("unsupported language: " ++ language))

/-- The command line chosen by the `switch` at the head of `runTestCase`:
`none` in the default case. -/
def command (language codeFile : String) : Except String (Option (List String)) :=
  match language with
  | "cpp" => .ok (some [codeFile ++ ".out"])
  | "java" =>
    match sliceTo codeFile ((codeFile.length : Int) - 5) with
    | .error p => .error p
    | .ok stem => .ok (some ["java", "-cp", Dir codeFile, Base stem])
  | "python" => .ok (some ["python", codeFile])
  | _ => .ok none

/-- The method `Evaluator.runTestCase`. -/
def runTestCase (env : Env) (w : World) (submission : Submission) (tc : TestCase)
    (codeFile : String) : World × Except String EvaluationResult :=
  match command submission.Language codeFile with
  | .error p => (w, .error p)
  | .ok none => (w, .ok { Status := "runtime_error", Error := "Unsupported language" })
  | .ok (some argv) =>
    let n := w.started.length
    let w := { w with started := w.started ++ [(argv, tc.Input)] }
    match env.proc n argv tc.Input with
    | .startError msg => (w, .ok { Status := "runtime_error", Error := msg })
    | .exited waitErr stdout stderr timeUsed =>
      let w := { w with fs := w.fs ++ env.procCreated n }
      if waitErr.isSome then
        (w, .ok { Status := "runtime_error", TimeUsed := timeUsed, Error := stderr })
      else if stdout ≠ tc.Output then
        (w, .ok { Status := "wrong_answer", TimeUsed := timeUsed,
                  Error := "Output does not match expected output" })
      else
        (w, .ok { Status := "accepted", TimeUsed := timeUsed })
    | .deadline _ =>
      let w := { w with fs := w.fs ++ env.procCreated n, killed := w.killed ++ [n] }
      (w, .ok { Status := "time_limit", TimeUsed := submission.Problem.TimeLimit,
                Error := "Time limit exceeded" })

/-- The loop of `Evaluate` over the test cases: one result is appended per
test case run, and the loop is left after the first result whose status is
not `accepted`. -/
def runTestCases (env : Env) (submission : Submission) (codeFile : String) :
    World → List TestCase → List SubmissionResult →
      World × Except String (List SubmissionResult)
  | w, [], results => (w, .ok results)
  | w, tc :: rest, results =>
    match runTestCase env w submission tc codeFile with
    | (w, .error p) => (w, .error p)
    | (w, .ok result) =>
      let results := results ++
        [{ SubmissionID := submission.ID
           TestCaseID := tc.ID
           Status := result.Status
           TimeUsed := result.TimeUsed
           MemoryUsed := result.MemoryUsed
           Error := result.Error }]
      if result.Status ≠ "accepted" then (w, .ok results)
      else runTestCases env submission codeFile w rest results

/-- What a call of `Evaluate` leaves behind: the world, the submission
record it was given a pointer to, and the returned error (`none` for `nil`)
or the panic. -/
structure Evaluation where
  world : World
  submission : Submission
  ret : Except String (Option String)

/-- The workspace directory of a submission. -/
def submissionDir (e : Evaluator) (submission : Submission) : String :=
  Join [e.workDir, "submission_" ++ toString submission.ID]

/-- The body of `Evaluate` after the deferred removal is registered. -/
def evaluateBody (env : Env) (w : World) (submission : Submission) (dir : String) :
    Evaluation :=
  let codeFile := Join [dir, getSourceFileName submission.Language]
  match WriteFile env w codeFile submission.Code with
  | (w, some err) => ⟨w, submission, .ok (some ("failed to write code file: " ++ err))⟩
  | (w, none) =>
    match compile env w submission.Language codeFile with
    | (w, some err) =>
      let submission := { submission with Status := "compilation_error", Error := err }
      ⟨dbSave w submission, submission, .ok none⟩
    | (w, none) =>
      let testCases := findTestCases w submission.ProblemID
      match runTestCases env submission codeFile w testCases [] with
      | (w, .error p) => ⟨w, submission, .error p⟩
      | (w, .ok results) =>
        let w := results.foldl dbCreate w
        match results.getLast? with
        | none => ⟨w, submission, .error "runtime error: index out of range [-1]"⟩
        | some last =>
          let submission := { submission with
            Status := last.Status, TimeUsed := last.TimeUsed, MemoryUsed := last.MemoryUsed }
          ⟨dbSave w submission, submission, .ok none⟩

/-- The method `Evaluator.Evaluate`: the workspace is created, the body
runs, and the deferred `os.RemoveAll` runs on every way out, a panic
included; its error is dropped. -/
def Evaluate (env : Env) (e : Evaluator) (w : World) (submission : Submission) :
    Evaluation :=
  let dir := submissionDir e submission
  let w := MkdirAll env w dir
  let r := evaluateBody env w submission dir
  { r with world := RemoveAll env r.world dir }

/-! ## Specification-side definitions -/

/-- Follows the specification's words for the language adapter:
`sourceFileName(language) -> filename`, which fails with
`UnsupportedLanguage` for unknown tags. -/
def sourceFileNameSpec (language : String) : Except String String :=
  match language with
  | "cpp" => .ok "main.cpp"
  | "java" => .ok "Main.java"
  | "python" => .ok "main.py"
  | _ => .error "UnsupportedLanguage"

/-- The result `runTestCase` reports for an outcome of the race between the
process and the deadline (proved equal to the code in `runTestCase_result`). -/
def verdict (submission : Submission) (tc : TestCase) : ProcOutcome → EvaluationResult
  | .startError msg => { Status := "runtime_error", Error := msg }
  | .exited (some _) _ stderr ms =>
    { Status := "runtime_error", TimeUsed := ms, Error := stderr }
  | .exited none stdout _ ms =>
    if stdout = tc.Output then { Status := "accepted", TimeUsed := ms }
    else { Status := "wrong_answer", TimeUsed := ms,
           Error := "Output does not match expected output" }
  | .deadline _ =>
    { Status := "time_limit", TimeUsed := submission.Problem.TimeLimit,
      Error := "Time limit exceeded" }

/-- The path of the source file that `Evaluate` writes for a submission. -/
def codeFile (e : Evaluator) (submission : Submission) : String :=
  Join [submissionDir e submission, getSourceFileName submission.Language]

/-- The elements of a list up to and including the first one that fails
`p`; the whole list when none fails. -/
def takeThrough {α : Type} (p : α → Bool) (xs : List α) : List α :=
  xs.take ((xs.takeWhile p).length + 1)

/-- Every test case of the list paired with the result it gets when the
test cases are run one after another, the first of them as process number
`n`. -/
def verdicts (env : Env) (submission : Submission) (argv : List String) (n : Nat)
    (tcs : List TestCase) : List (TestCase × EvaluationResult) :=
  (tcs.enumFrom n).map
    (fun p => (p.2, verdict submission p.2 (env.proc p.1 argv p.2.Input)))

/-- The test cases judged for a submission, with their results: those up to
and including the first whose status is not `accepted`. -/
def judged (env : Env) (submission : Submission) (argv : List String) (n : Nat)
    (tcs : List TestCase) : List (TestCase × EvaluationResult) :=
  takeThrough (fun p => decide (p.2.Status = "accepted")) (verdicts env submission argv n tcs)

/-- The row stored for a test case and its result. -/
def resultRow (submission : Submission) (p : TestCase × EvaluationResult) :
    SubmissionResult :=
  { SubmissionID := submission.ID
    TestCaseID := p.1.ID
    Status := p.2.Status
    TimeUsed := p.2.TimeUsed
    MemoryUsed := p.2.MemoryUsed
    Error := p.2.Error }

/-! ## Examples of outside worlds -/

/-- An outside world in which every file system call succeeds, the toolchain
succeeds silently, and every process prints `7` and a newline and exits with
status zero after 12 ms. -/
def envPrints7 : Env where
  mkdirOk := fun _ => true
  writeErr := fun _ _ => none
  tool := fun _ => {}
  proc := fun _ _ _ => .exited none "7\n" "" 12
  procCreated := fun _ => []
  removeFails := fun _ _ => false

/-- An outside world in which every process runs into the deadline. -/
def envLoops : Env :=
  { envPrints7 with proc := fun _ _ _ => .deadline 1003 }

/-- An outside world in which every process prints the expected `7` and a
newline, writes `boom` to standard error and exits with status 1. -/
def envCrashes : Env :=
  { envPrints7 with proc := fun _ _ _ => .exited (some "exit status 1") "7\n" "boom" 3 }

/-- A Python submission with identifier 7 for problem 1, time limit 1000 ms. -/
def pySubmission : Submission :=
  { ID := 7, ProblemID := 1, Language := "python", Code := "print(3+4)",
    Status := "pending", Problem := { ID := 1, TimeLimit := 1000, MemoryLimit := 64 } }

/-- A test case of problem 1 with input `3 4` and expected output `7`, each
followed by a newline. -/
def tcSum : TestCase :=
  { ID := 1, ProblemID := 1, Input := "3 4\n", Output := "7\n" }

/-- The same test case with the expected output lacking the final newline. -/
def tcSumNoNewline : TestCase :=
  { ID := 2, ProblemID := 1, Input := "3 4\n", Output := "7" }

/-- An outside world in which the process started second prints `8` after
5 ms and every other process prints `7` after 50 ms, all exiting with status
zero. -/
def envABC : Env :=
  { envPrints7 with
    proc := fun n _ _ =>
      if n = 1 then .exited none "8\n" "" 5 else .exited none "7\n" "" 50 }

/-- An outside world in which the toolchain fails with exit status 1 after
writing a diagnostic to standard error. -/
def envBadCompile : Env :=
  { envPrints7 with
    tool := fun _ =>
      { err := some "exit status 1"
        stderr := "main.cpp:1:1: error: expected unqualified-id" } }

/-- A store with three test cases A, B, C (identifiers 1, 2, 3) of problem 1,
each expecting `7` and a newline, and one test case of another problem. -/
def worldABC : World :=
  { testCases :=
      [{ ID := 1, ProblemID := 1, Input := "3 4\n", Output := "7\n" },
       { ID := 9, ProblemID := 2, Input := "x", Output := "y" },
       { ID := 2, ProblemID := 1, Input := "5 2\n", Output := "7\n" },
       { ID := 3, ProblemID := 1, Input := "1 6\n", Output := "7\n" }] }

/-- An evaluator working in `/tmp/onlinejudge`. -/
def judge : Evaluator := ⟨"/tmp/onlinejudge"⟩

/-- A C++ submission with identifier 8 for problem 1. -/
def cppSubmission : Submission :=
  { pySubmission with ID := 8, Language := "cpp", Code := "int main(" }

/-- A submission with identifier 7 whose language tag `rust` is not
supported. -/
def rustSubmission : Submission :=
  { pySubmission with Language := "rust", Code := "fn main()" }

/-- An outside world in which the source file cannot be written. -/
def envDiskFull : Env :=
  { envPrints7 with writeErr := fun _ _ => some "no space left on device" }

/-- An outside world in which no process can be started. -/
def envNoSpawn : Env :=
  { envPrints7 with proc := fun _ _ _ => .startError "fork/exec: resource temporarily unavailable" }

/-- The Python submission 7 after an earlier evaluation that accepted it
with 50 ms. -/
def acceptedSubmission : Submission :=
  { pySubmission with Status := "accepted", TimeUsed := 50 }

/-- A Python submission for problem 5, which has no test case in
`worldABC`. -/
def orphanSubmission : Submission :=
  { pySubmission with ID := 11, ProblemID := 5 }

/-- A store whose only test case is `tcSum`. -/
def worldSum : World :=
  { testCases := [tcSum] }

/-- The path that `filepath.Clean` builds from the elements it kept (the
last one first). -/
def render (rooted : Bool) (stack : List (List Char)) : List Char :=
  let body := joinSep stack.reverse
  if rooted then '/' :: body
  else if body = [] then ['.'] else body

/-- The elements `filepath.Clean` can keep (the last one first): each is a
non-empty name without separator other than `.`, and `..` stands only at the
start of a path that is not rooted. -/
def NormalStack (rooted : Bool) : List (List Char) → Prop
  | [] => True
  | el :: st =>
    el ≠ [] ∧ el ≠ ['.'] ∧ '/' ∉ el ∧
    (el = ['.', '.'] → rooted = false ∧ ∀ top ∈ st.head?, top = ['.', '.']) ∧
    NormalStack rooted st

/-- The number written by a list of decimal digits. -/
def decimalValue (ds : List Char) : Nat :=
  ds.foldl (fun acc c => 10 * acc + (c.toNat - 48)) 0

/-- A Java submission with identifier 7 for problem 1. -/
def javaSubmission : Submission :=
  { pySubmission with Language := "java", Code := "class Main" }

/-! ## Intake: the handler `Submit` and the broker (`handlers/submission.go`,
`pkg/broker/nats.go`) -/

/-- The JSON object of a `models.Submission` (keys `id`, `user_id`,
`problem_id`, `language`, `code`, `status`, `time_used`, `memory_used` and
the nested object `problem`); a key that is absent reads as the zero
value. -/
structure SubmissionJSON where
  id : Nat := 0
  user_id : Nat := 0
  problem_id : Nat := 0
  language : String := ""
  code : String := ""
  status : String := ""
  time_used : Int := 0
  memory_used : Int := 0
  problem : Problem := {}
  deriving DecidableEq, Repr

/-- The call `json.Marshal(submission)`. -/
def marshal (s : Submission) : SubmissionJSON :=
  { id := s.ID, user_id := s.UserID, problem_id := s.ProblemID, language := s.Language,
    code := s.Code, status := s.Status, time_used := s.TimeUsed,
    memory_used := s.MemoryUsed, problem := s.Problem }

/-- The call `json.Unmarshal(data, &submission)` on a fresh record, which is
also what `c.ShouldBindJSON(&submission)` does with a request body. -/
def unmarshal (j : SubmissionJSON) : Submission :=
  { ID := j.id, UserID := j.user_id, ProblemID := j.problem_id, Language := j.language,
    Code := j.code, Status := j.status, TimeUsed := j.time_used,
    MemoryUsed := j.memory_used, Problem := j.problem }

/-- A request to `Submit`: the decoded body (`none` when it is not valid
JSON for a submission) and the identifier of the authenticated user placed in
the context by the middleware (`none` when there is none). -/
structure Request where
  body : Option SubmissionJSON
  user : Option Nat

/-- The collaborators of the handler. -/
structure Intake where
  /-- The table of problems. -/
  problems : List Problem
  /-- The call `db.Create(&submission)`: the primary key given to the new
  row, `none` when the call fails. -/
  create : Submission → Option Nat
  /-- Whether `conn.Publish` succeeds. -/
  publishOk : Bool

/-- The query `db.First(&problem, id)`. -/
def firstProblem (problems : List Problem) (id : Nat) : Option Problem :=
  problems.find? (fun p => p.ID = id)

/-- The method `NATSClient.PublishSubmission`: the message put on the
subject, `none` when publishing fails. -/
def PublishSubmission (intake : Intake) (submission : Submission) : Option SubmissionJSON :=
  if intake.publishOk then some (marshal submission) else none

/-- The method `SubmissionHandler.Submit`: the HTTP status of the answer and
the message published for evaluation, if any. -/
def Submit (intake : Intake) (req : Request) : Nat × Option SubmissionJSON :=
  match req.body with
  | none => (400, none)
  | some body =>
    let submission := unmarshal body
    match req.user with
    | none => (401, none)
    | some userID =>
      let submission := { submission with UserID := userID }
      match firstProblem intake.problems submission.ProblemID with
      | none => (404, none)
      | some _ =>
        let submission := { submission with Status := "pending" }
        match intake.create submission with
        | none => (500, none)
        | some id =>
          let submission := { submission with ID := id }
          match PublishSubmission intake submission with
          | none => (500, none)
          | some msg => (201, some msg)

/-- The callback of `NATSClient.SubscribeToSubmissions` on one message. -/
def SubscribeToSubmissions (env : Env) (e : Evaluator) (w : World) (msg : SubmissionJSON) :
    Evaluation :=
  Evaluate env e w (unmarshal msg)

/-- An intake whose store holds problem 1 with a time limit of 1000 ms and
gives the next submission the identifier 12. -/
def intakeOne : Intake :=
  { problems := [{ ID := 1, TimeLimit := 1000, MemoryLimit := 64 }]
    create := fun _ => some 12
    publishOk := true }

/-- A request by user 3 submitting Python code for problem 1; the body has
the keys `problem_id`, `language` and `code` only. -/
def requestLoop : Request :=
  { body := some { problem_id := 1, language := "python", code := "while True: pass" }
    user := some 3 }

/-- An outside world in which the program under test prints `7`, creates
the directory `ro` with the file `x` in the workspace of submission 7 and
makes `ro` read-only, so that no removal can delete `x`. -/
def envSticky : Env :=
  { envPrints7 with
    procCreated := fun _ =>
      ["/tmp/onlinejudge/submission_7/ro", "/tmp/onlinejudge/submission_7/ro/x"]
    removeFails := fun _ q => q = "/tmp/onlinejudge/submission_7/ro/x" }

/-! ## Paths: the last element of a joined path -/

theorem splitSep_ne_nil (p : List Char) : splitSep p ≠ [] := by
  cases p with
  | nil => simp [splitSep]
  | cons c cs =>
    unfold splitSep
    split
    · simp
    · split <;> simp

theorem splitSep_append_sep (p q : List Char) :
    splitSep (p ++ '/' :: q) = splitSep p ++ splitSep q := by
  induction p with
  | nil => simp [splitSep]
  | cons c cs ih =>
    by_cases hc : c = '/'
    · simp [splitSep, hc, ih]
    · have hne := splitSep_ne_nil cs
      cases hs : splitSep cs with
      | nil => exact absurd hs hne
      | cons x xs => simp [splitSep, hc, ih, hs]

theorem splitSep_of_no_sep (q : List Char) (h : '/' ∉ q) : splitSep q = [q] := by
  induction q with
  | nil => simp [splitSep]
  | cons c cs ih =>
    have hc : c ≠ '/' := fun e => h (by simp [e])
    have hcs : '/' ∉ cs := fun e => h (by simp [e])
    simp [splitSep, hc, ih hcs]

theorem joinSep_append_singleton (xs : List (List Char)) (n : List Char) :
    ∃ pre, joinSep (xs ++ [n]) = pre ++ n := by
  induction xs with
  | nil => exact ⟨[], by simp [joinSep]⟩
  | cons x rest ih =>
    obtain ⟨pre, hpre⟩ := ih
    cases rest with
    | nil => exact ⟨x ++ ['/'], by simp [joinSep]⟩
    | cons y ys =>
      refine ⟨x ++ '/' :: pre, ?_⟩
      have hgoal : joinSep (x :: y :: ys ++ [n]) = x ++ '/' :: joinSep (y :: ys ++ [n]) := rfl
      rw [hgoal, hpre]
      simp

/-- A raw path whose last element is an ordinary name is cleaned to a path
ending in that name. -/
theorem cleanChars_ends (p n : List Char) (hp : p ≠ [])
    (hsplit : ∃ xs, splitSep p = xs ++ [n])
    (h0 : n ≠ []) (h1 : n ≠ ['.']) (h2 : n ≠ ['.', '.']) :
    ∃ pre, cleanChars p = pre ++ n := by
  obtain ⟨xs, hxs⟩ := hsplit
  cases p with
  | nil => exact absurd rfl hp
  | cons c cs =>
    simp only [cleanChars, hxs, List.foldl_append, List.foldl_cons, List.foldl_nil]
    have hstep : ∀ st, cleanStep (decide (c = '/')) st n = n :: st := by
      intro st
      simp [cleanStep, h0, h1, h2]
    rw [hstep]
    simp only [List.reverse_cons]
    obtain ⟨pre, hpre⟩ := joinSep_append_singleton
      (List.foldl (cleanStep (decide (c = '/'))) [] xs).reverse n
    rw [hpre]
    by_cases hr : c = '/'
    · exact ⟨'/' :: pre, by simp [hr]⟩
    · refine ⟨pre, ?_⟩
      have : pre ++ n ≠ [] := by simp [h0]
      simp [hr, this]

/-- The path `filepath.Join(dir, name)` ends in `name` when `name` is an
ordinary file name. -/
theorem Join_ends (dir name : String) (hsep : '/' ∉ name.data)
    (h0 : name.data ≠ []) (h1 : name.data ≠ ['.']) (h2 : name.data ≠ ['.', '.']) :
    ∃ pre, (Join [dir, name]).data = pre ++ name.data := by
  have hname : name ≠ "" := by
    intro e
    apply h0
    rw [e]
  by_cases hd : dir = ""
  · simp only [Join, hd, if_true, hname, if_false, Clean, List.map, joinSep]
    exact cleanChars_ends name.data name.data h0
      ⟨[], by simpa using splitSep_of_no_sep name.data hsep⟩ h0 h1 h2
  · simp only [Join, hd, if_false, Clean, List.map, joinSep]
    refine cleanChars_ends _ name.data (by simp) ⟨splitSep dir.data, ?_⟩ h0 h1 h2
    rw [splitSep_append_sep, splitSep_of_no_sep name.data hsep]

/-- Inside any directory, the path of the Java source file has at least the
nine characters of `Main.java`. -/
theorem Join_java_length (dir : String) : 9 ≤ (Join [dir, "Main.java"]).length := by
  obtain ⟨pre, h⟩ := Join_ends dir "Main.java" (by decide) (by decide) (by decide) (by decide)
  rw [String.length, h, List.length_append]
  have : ("Main.java" : String).data.length = 9 := by decide
  omega

theorem getSourceFileName_default (language : String)
    (h1 : language ≠ "cpp") (h2 : language ≠ "java") (h3 : language ≠ "python") :
    getSourceFileName language = "main" := by
  unfold getSourceFileName
  split <;> simp_all

/-! ## The source file name (C9) -/

/-- C9, the claim as stated fails: for the unknown language tag `rust` the
code returns the file name `main`, where the specification's adapter fails
with `UnsupportedLanguage`. -/
theorem getSourceFileName_unknown_returns_main :
    getSourceFileName "rust" = "main" ∧
    sourceFileNameSpec "rust" = .error "UnsupportedLanguage" ∧
    sourceFileNameSpec "rust" ≠ .ok (getSourceFileName "rust") := by
  refine ⟨by decide, rfl, ?_⟩
  intro h
  cases h

/-- C9 as amended: `getSourceFileName` maps `cpp` to `main.cpp`, `java` to
`Main.java`, `python` to `main.py`, and every other language tag to the file
name `main`; it never fails. -/
theorem getSourceFileName_table :
    getSourceFileName "cpp" = "main.cpp" ∧
    getSourceFileName "java" = "Main.java" ∧
    getSourceFileName "python" = "main.py" ∧
    ∀ language : String, language ≠ "cpp" → language ≠ "java" → language ≠ "python" →
      getSourceFileName language = "main" := by
  refine ⟨by decide, by decide, by decide, ?_⟩
  intro language h1 h2 h3
  unfold getSourceFileName
  split <;> simp_all

/-- C9 as amended, at the language tag `go`. -/
theorem getSourceFileName_table_witness :
    "go" ≠ "cpp" ∧ "go" ≠ "java" ∧ "go" ≠ "python" ∧ getSourceFileName "go" = "main" :=
  ⟨by decide, by decide, by decide,
    getSourceFileName_table.2.2.2 "go" (by decide) (by decide) (by decide)⟩

/-! ## One test case (C5, C6, C7) -/

/-- The code of `runTestCase` once a command line is chosen: the process is
logged as started, and the result is the `verdict` on the outcome of the
race. -/
theorem runTestCase_result (env : Env) (w : World) (submission : Submission)
    (tc : TestCase) (codeFile : String) (argv : List String)
    (hcmd : command submission.Language codeFile = .ok (some argv)) :
    (runTestCase env w submission tc codeFile).2 =
        .ok (verdict submission tc (env.proc w.started.length argv tc.Input)) ∧
    (runTestCase env w submission tc codeFile).1.started =
        w.started ++ [(argv, tc.Input)] ∧
    (runTestCase env w submission tc codeFile).1.results = w.results ∧
    (runTestCase env w submission tc codeFile).1.saved = w.saved ∧
    (runTestCase env w submission tc codeFile).1.testCases = w.testCases ∧
    (runTestCase env w submission tc codeFile).1.toolRuns = w.toolRuns ∧
    (runTestCase env w submission tc codeFile).1.fsLog = w.fsLog := by
  unfold runTestCase
  rw [hcmd]
  cases hp : env.proc w.started.length argv tc.Input with
  | startError msg => simp [hp, verdict]
  | exited waitErr stdout stderr ms =>
    cases waitErr with
    | none =>
      by_cases hout : stdout = tc.Output
      · simp [hp, verdict, hout]
      · simp [hp, verdict, hout]
    | some err => simp [hp, verdict]
  | deadline elapsed => simp [hp, verdict]

/-- C5: when a process was started for the test case and exits with status
zero before the deadline, `runTestCase` returns `accepted` exactly when the
captured standard output equals the expected output, and `wrong_answer`
exactly when it differs; output and expected output that differ by a
non-empty suffix (a trailing newline or blank, say) give `wrong_answer`. -/
theorem runTestCase_exit_zero (env : Env) (w : World) (submission : Submission)
    (tc : TestCase) (codeFile : String) (argv : List String)
    (stdout stderr : String) (ms : Int)
    (hcmd : command submission.Language codeFile = .ok (some argv))
    (hexit : env.proc w.started.length argv tc.Input = .exited none stdout stderr ms) :
    ∃ r : EvaluationResult,
      (runTestCase env w submission tc codeFile).2 = .ok r ∧
      (r.Status = "accepted" ↔ stdout = tc.Output) ∧
      (r.Status = "wrong_answer" ↔ stdout ≠ tc.Output) ∧
      (∀ suffix : String, suffix ≠ "" →
        stdout = tc.Output ++ suffix ∨ tc.Output = stdout ++ suffix →
        r.Status = "wrong_answer") := by
  have hr := (runTestCase_result env w submission tc codeFile argv hcmd).1
  rw [hexit] at hr
  refine ⟨_, hr, ?_, ?_, ?_⟩
  · by_cases hout : stdout = tc.Output <;> simp [verdict, hout]
  · by_cases hout : stdout = tc.Output <;> simp [verdict, hout]
  · intro suffix hne hsuf
    have hlen : 0 < suffix.length := by
      rcases suffix with ⟨l⟩
      cases l with
      | nil => exact absurd rfl hne
      | cons c cs => simp [String.length]
    have hout : stdout ≠ tc.Output := by
      intro heq
      rcases hsuf with h | h
      · have := congrArg String.length h
        rw [String.length_append, heq] at this
        omega
      · have := congrArg String.length h
        rw [String.length_append, heq] at this
        omega
    simp [verdict, hout]

/-- C5 at a process that prints `7` and a newline where `7` without the
newline is expected: the result is `wrong_answer`. -/
theorem runTestCase_exit_zero_witness :
    command pySubmission.Language "/tmp/onlinejudge/submission_7/main.py" =
      .ok (some ["python", "/tmp/onlinejudge/submission_7/main.py"]) ∧
    envPrints7.proc 0 ["python", "/tmp/onlinejudge/submission_7/main.py"]
      tcSumNoNewline.Input = .exited none "7\n" "" 12 ∧
    ∃ r : EvaluationResult,
      (runTestCase envPrints7 {} pySubmission tcSumNoNewline
        "/tmp/onlinejudge/submission_7/main.py").2 = .ok r ∧
      r.Status = "wrong_answer" := by
  obtain ⟨r, h1, _, _, h4⟩ :=
    runTestCase_exit_zero envPrints7 {} pySubmission tcSumNoNewline
      "/tmp/onlinejudge/submission_7/main.py"
      ["python", "/tmp/onlinejudge/submission_7/main.py"] "7\n" "" 12 rfl rfl
  exact ⟨rfl, rfl, r, h1, h4 "\n" (by decide) (Or.inl (by decide))⟩

/-- C6: when a process was started for the test case and the deadline
elapses before it exits, `runTestCase` kills it and returns `time_limit` with
`TimeUsed` equal to the time limit of the submission's problem, whatever the
elapsed wall-clock time. -/
theorem runTestCase_deadline (env : Env) (w : World) (submission : Submission)
    (tc : TestCase) (codeFile : String) (argv : List String) (elapsed : Int)
    (hcmd : command submission.Language codeFile = .ok (some argv))
    (hrace : env.proc w.started.length argv tc.Input = .deadline elapsed) :
    (runTestCase env w submission tc codeFile).2 =
      .ok { Status := "time_limit", TimeUsed := submission.Problem.TimeLimit,
            MemoryUsed := 0, Error := "Time limit exceeded" } ∧
    (runTestCase env w submission tc codeFile).1.killed = w.killed ++ [w.started.length] := by
  refine ⟨?_, ?_⟩
  · have hr := (runTestCase_result env w submission tc codeFile argv hcmd).1
    rw [hrace] at hr
    simpa [verdict] using hr
  · unfold runTestCase
    rw [hcmd]
    simp [hrace]

/-- C6 at a time limit of 1000 ms and a deadline firing after 1003 ms:
`TimeUsed` is 1000. -/
theorem runTestCase_deadline_witness :
    command pySubmission.Language "/tmp/onlinejudge/submission_7/main.py" =
      .ok (some ["python", "/tmp/onlinejudge/submission_7/main.py"]) ∧
    envLoops.proc 0 ["python", "/tmp/onlinejudge/submission_7/main.py"] tcSum.Input =
      .deadline 1003 ∧
    (runTestCase envLoops {} pySubmission tcSum
        "/tmp/onlinejudge/submission_7/main.py").2 =
      .ok { Status := "time_limit", TimeUsed := 1000, MemoryUsed := 0,
            Error := "Time limit exceeded" } :=
  ⟨rfl, rfl,
    (runTestCase_deadline envLoops {} pySubmission tcSum
      "/tmp/onlinejudge/submission_7/main.py"
      ["python", "/tmp/onlinejudge/submission_7/main.py"] 1003 rfl rfl).1⟩

/-- C7: when a process was started for the test case and `Wait` reports an
error (non-zero or abnormal exit) before the deadline, `runTestCase` returns
`runtime_error` whose `Error` is the captured standard error, whatever was
written to standard output. -/
theorem runTestCase_exit_error (env : Env) (w : World) (submission : Submission)
    (tc : TestCase) (codeFile : String) (argv : List String)
    (waitErr stdout stderr : String) (ms : Int)
    (hcmd : command submission.Language codeFile = .ok (some argv))
    (hexit : env.proc w.started.length argv tc.Input =
      .exited (some waitErr) stdout stderr ms) :
    (runTestCase env w submission tc codeFile).2 =
      .ok { Status := "runtime_error", TimeUsed := ms, MemoryUsed := 0, Error := stderr } := by
  have hr := (runTestCase_result env w submission tc codeFile argv hcmd).1
  rw [hexit] at hr
  simpa [verdict] using hr

/-- C7 at a process that prints exactly the expected output, writes `boom`
to standard error and exits with status 1: the result is `runtime_error`
carrying `boom`. -/
theorem runTestCase_exit_error_witness :
    command pySubmission.Language "/tmp/onlinejudge/submission_7/main.py" =
      .ok (some ["python", "/tmp/onlinejudge/submission_7/main.py"]) ∧
    envCrashes.proc 0 ["python", "/tmp/onlinejudge/submission_7/main.py"] tcSum.Input =
      .exited (some "exit status 1") tcSum.Output "boom" 3 ∧
    (runTestCase envCrashes {} pySubmission tcSum
        "/tmp/onlinejudge/submission_7/main.py").2 =
      .ok { Status := "runtime_error", TimeUsed := 3, MemoryUsed := 0, Error := "boom" } :=
  ⟨rfl, rfl,
    runTestCase_exit_error envCrashes {} pySubmission tcSum
      "/tmp/onlinejudge/submission_7/main.py"
      ["python", "/tmp/onlinejudge/submission_7/main.py"] "exit status 1" "7\n" "boom" 3
      rfl rfl⟩

/-! ## The steps of `Evaluate`: what each one leaves untouched -/

theorem WriteFile_err (env : Env) (w : World) (path data : String) :
    (WriteFile env w path data).2 = env.writeErr path data := by
  unfold WriteFile
  cases env.writeErr path data <;> rfl

theorem WriteFile_frame (env : Env) (w : World) (path data : String) :
    (WriteFile env w path data).1.started = w.started ∧
    (WriteFile env w path data).1.results = w.results ∧
    (WriteFile env w path data).1.saved = w.saved ∧
    (WriteFile env w path data).1.testCases = w.testCases ∧
    (WriteFile env w path data).1.toolRuns = w.toolRuns ∧
    (WriteFile env w path data).1.fsLog = w.fsLog ++ [.writeFile path data] := by
  unfold WriteFile
  cases env.writeErr path data <;> simp

theorem compile_err_world (env : Env) (w w' : World) (language file : String) :
    (compile env w language file).2 = (compile env w' language file).2 := by
  unfold compile
  split <;> rfl

theorem compile_frame (env : Env) (w : World) (language file : String) :
    (compile env w language file).1.started = w.started ∧
    (compile env w language file).1.results = w.results ∧
    (compile env w language file).1.saved = w.saved ∧
    (compile env w language file).1.testCases = w.testCases ∧
    (compile env w language file).1.fsLog = w.fsLog := by
  unfold compile
  split <;> simp [runTool]

theorem compile_none_language (env : Env) (w : World) (language file : String)
    (h : (compile env w language file).2 = none) :
    language = "cpp" ∨ language = "java" ∨ language = "python" := by
  unfold compile at h
  split at h <;> simp_all

theorem command_of_language (language file : String) (hlen : 5 ≤ file.length)
    (h : language = "cpp" ∨ language = "java" ∨ language = "python") :
    ∃ argv, command language file = .ok (some argv) := by
  rcases h with h | h | h
  · exact ⟨_, by rw [h]; rfl⟩
  · subst h
    have hs : sliceTo file ((file.length : Int) - 5) =
        .ok ⟨file.data.take ((file.length : Int) - 5).toNat⟩ := by
      unfold sliceTo
      rw [if_neg]
      omega
    exact ⟨["java", "-cp", Dir file, Base ⟨file.data.take ((file.length : Int) - 5).toNat⟩],
      by simp only [command, hs]⟩
  · exact ⟨_, by rw [h]; rfl⟩

theorem foldl_dbCreate (rows : List SubmissionResult) (w : World) :
    (rows.foldl dbCreate w).results = w.results ++ rows ∧
    (rows.foldl dbCreate w).started = w.started ∧
    (rows.foldl dbCreate w).saved = w.saved ∧
    (rows.foldl dbCreate w).fs = w.fs ∧
    (rows.foldl dbCreate w).fsLog = w.fsLog ∧
    (rows.foldl dbCreate w).toolRuns = w.toolRuns := by
  induction rows generalizing w with
  | nil => simp
  | cons r rest ih =>
    simp only [List.foldl_cons]
    obtain ⟨h1, h2, h3, h4, h5, h6⟩ := ih (dbCreate w r)
    rw [h1, h2, h3, h4, h5, h6]
    simp [dbCreate]

/-! ## The loop over the test cases -/

theorem takeThrough_nil {α : Type} (p : α → Bool) : takeThrough p [] = [] := rfl

theorem takeThrough_cons {α : Type} (p : α → Bool) (x : α) (xs : List α) :
    takeThrough p (x :: xs) = if p x then x :: takeThrough p xs else [x] := by
  by_cases h : p x <;> simp [takeThrough, List.takeWhile_cons, h]


/-- The loop of `Evaluate`, once a command line is chosen: it never panics,
its results are the rows of the judged test cases, and exactly the judged
test cases had a process started. -/
theorem runTestCases_judged (env : Env) (submission : Submission) (file : String)
    (argv : List String) (hcmd : command submission.Language file = .ok (some argv)) :
    ∀ (tcs : List TestCase) (w : World) (acc : List SubmissionResult),
      (runTestCases env submission file w tcs acc).2 =
        .ok (acc ++ (judged env submission argv w.started.length tcs).map
          (resultRow submission)) ∧
      (runTestCases env submission file w tcs acc).1.started =
        w.started ++ (judged env submission argv w.started.length tcs).map
          (fun p => (argv, p.1.Input)) ∧
      (runTestCases env submission file w tcs acc).1.results = w.results ∧
      (runTestCases env submission file w tcs acc).1.saved = w.saved ∧
      (runTestCases env submission file w tcs acc).1.fsLog = w.fsLog := by
  intro tcs
  induction tcs with
  | nil =>
    intro w acc
    simp [runTestCases, judged, verdicts, takeThrough_nil]
  | cons tc rest ih =>
    intro w acc
    obtain ⟨hr, hst, hres, hsv, _, _, hlog⟩ :=
      runTestCase_result env w submission tc file argv hcmd
    rcases hrun : runTestCase env w submission tc file with ⟨w1, r⟩
    rw [hrun] at hr hst hres hsv hlog
    simp only at hr hst hres hsv hlog
    subst hr
    have hlen : w1.started.length = w.started.length + 1 := by simp [hst]
    generalize hv : verdict submission tc (env.proc w.started.length argv tc.Input) = v
      at hrun
    obtain ⟨i1, i2, i3, i4, i5⟩ := ih w1 (acc ++ [resultRow submission (tc, v)])
    rw [hlen] at i1 i2
    by_cases hacc : v.Status = "accepted"
    · have hstep : runTestCases env submission file w (tc :: rest) acc =
          runTestCases env submission file w1 rest (acc ++ [resultRow submission (tc, v)]) := by
        simp only [runTestCases, hrun]
        rw [if_neg (by simpa using hacc)]
        rfl
      have hj : judged env submission argv w.started.length (tc :: rest) =
          (tc, v) :: judged env submission argv (w.started.length + 1) rest := by
        simp only [judged, verdicts, List.enumFrom_cons, List.map_cons, takeThrough_cons, hv]
        rw [if_pos (by simpa using hacc)]
      rw [hstep, hj, i1, i2, i3, i4, i5, hst, hres, hsv, hlog]
      simp
    · have hstep : runTestCases env submission file w (tc :: rest) acc =
          (w1, .ok (acc ++ [resultRow submission (tc, v)])) := by
        simp only [runTestCases, hrun]
        rw [if_pos (by simpa using hacc)]
        rfl
      have hj : judged env submission argv w.started.length (tc :: rest) = [(tc, v)] := by
        simp only [judged, verdicts, List.enumFrom_cons, List.map_cons, takeThrough_cons, hv]
        rw [if_neg (by simpa using hacc)]
      rw [hstep, hj]
      simp [hst, hres, hsv, hlog]

/-! ## The ways out of `Evaluate` -/

theorem command_of_compiled (env : Env) (w : World) (e : Evaluator)
    (submission : Submission)
    (h : (compile env w submission.Language (codeFile e submission)).2 = none) :
    ∃ argv, command submission.Language (codeFile e submission) = .ok (some argv) := by
  have hl := compile_none_language env w _ _ h
  rcases hl with hl | hl | hl
  · exact ⟨_, by rw [hl]; rfl⟩
  · apply command_of_language _ _ _ (Or.inr (Or.inl hl))
    have := Join_java_length (submissionDir e submission)
    simp only [codeFile, hl, getSourceFileName]
    omega
  · exact ⟨_, by rw [hl]; rfl⟩

/-- The way out of `Evaluate` when the source file cannot be written. -/
theorem Evaluate_write_failed (env : Env) (e : Evaluator) (w : World)
    (submission : Submission) (err : String)
    (hwrite : env.writeErr (codeFile e submission) submission.Code = some err) :
    (Evaluate env e w submission).ret = .ok (some ("failed to write code file: " ++ err)) ∧
    (Evaluate env e w submission).submission = submission ∧
    (Evaluate env e w submission).world.results = w.results ∧
    (Evaluate env e w submission).world.started = w.started ∧
    (Evaluate env e w submission).world.saved = w.saved ∧
    (Evaluate env e w submission).world.toolRuns = w.toolRuns := by
  have hW := WriteFile_err env (MkdirAll env w (submissionDir e submission))
    (codeFile e submission) submission.Code
  obtain ⟨f1, f2, f3, _, f5, _⟩ := WriteFile_frame env
    (MkdirAll env w (submissionDir e submission)) (codeFile e submission) submission.Code
  rw [hwrite] at hW
  rcases hw1 : WriteFile env (MkdirAll env w (submissionDir e submission))
    (codeFile e submission) submission.Code with ⟨w1, r⟩
  rw [hw1] at hW f1 f2 f3 f5
  simp only at hW f1 f2 f3 f5
  subst hW
  simp only [codeFile] at hw1
  simp only [Evaluate, evaluateBody, hw1, RemoveAll]
  simp [f1, f2, f3, f5, MkdirAll]

/-- The way out of `Evaluate` when the source file is written and `compile`
returns an error. -/
theorem Evaluate_compile_failed (env : Env) (e : Evaluator) (w : World)
    (submission : Submission) (err : String)
    (hwrite : env.writeErr (codeFile e submission) submission.Code = none)
    (hcompile : (compile env w submission.Language (codeFile e submission)).2 = some err) :
    (Evaluate env e w submission).ret = .ok none ∧
    (Evaluate env e w submission).submission =
      { submission with Status := "compilation_error", Error := err } ∧
    (Evaluate env e w submission).world.results = w.results ∧
    (Evaluate env e w submission).world.started = w.started ∧
    (Evaluate env e w submission).world.saved =
      w.saved ++ [{ submission with Status := "compilation_error", Error := err }] := by
  have hW := WriteFile_err env (MkdirAll env w (submissionDir e submission))
    (codeFile e submission) submission.Code
  obtain ⟨f1, f2, f3, _, _, _⟩ := WriteFile_frame env
    (MkdirAll env w (submissionDir e submission)) (codeFile e submission) submission.Code
  rw [hwrite] at hW
  rcases hw1 : WriteFile env (MkdirAll env w (submissionDir e submission))
    (codeFile e submission) submission.Code with ⟨w1, r⟩
  rw [hw1] at hW f1 f2 f3
  simp only at hW f1 f2 f3
  subst hW
  have hC := compile_err_world env w1 w submission.Language (codeFile e submission)
  obtain ⟨c1, c2, c3, _, _⟩ := compile_frame env w1 submission.Language (codeFile e submission)
  rw [hcompile] at hC
  rcases hw2 : compile env w1 submission.Language (codeFile e submission) with ⟨w2, r⟩
  rw [hw2] at hC c1 c2 c3
  simp only at hC c1 c2 c3
  subst hC
  simp only [codeFile] at hw1 hw2
  simp only [Evaluate, evaluateBody, hw1, hw2, RemoveAll, dbSave]
  simp [f1, f2, f3, c1, c2, c3, MkdirAll]

/-- The way out of `Evaluate` when the source file is written and `compile`
returns `nil`: the rows created and the processes started are those of the
judged test cases; with no row the indexing of the last row panics, and
otherwise the last row is copied onto the submission, which is saved. -/
theorem Evaluate_compiled (env : Env) (e : Evaluator) (w : World)
    (submission : Submission)
    (hwrite : env.writeErr (codeFile e submission) submission.Code = none)
    (hcompile : (compile env w submission.Language (codeFile e submission)).2 = none) :
    ∃ argv, command submission.Language (codeFile e submission) = .ok (some argv) ∧
      (Evaluate env e w submission).world.results =
        w.results ++ (judged env submission argv w.started.length
          (findTestCases w submission.ProblemID)).map (resultRow submission) ∧
      (Evaluate env e w submission).world.started =
        w.started ++ (judged env submission argv w.started.length
          (findTestCases w submission.ProblemID)).map (fun p => (argv, p.1.Input)) ∧
      (((judged env submission argv w.started.length
          (findTestCases w submission.ProblemID)).map (resultRow submission)).getLast? = none →
        (Evaluate env e w submission).ret = .error "runtime error: index out of range [-1]" ∧
        (Evaluate env e w submission).submission = submission ∧
        (Evaluate env e w submission).world.saved = w.saved) ∧
      (∀ last, ((judged env submission argv w.started.length
          (findTestCases w submission.ProblemID)).map (resultRow submission)).getLast? =
            some last →
        (Evaluate env e w submission).ret = .ok none ∧
        (Evaluate env e w submission).submission =
          { submission with Status := last.Status, TimeUsed := last.TimeUsed,
                            MemoryUsed := last.MemoryUsed } ∧
        (Evaluate env e w submission).world.saved =
          w.saved ++ [{ submission with Status := last.Status, TimeUsed := last.TimeUsed,
                                        MemoryUsed := last.MemoryUsed }]) := by
  obtain ⟨argv, hcmd⟩ := command_of_compiled env w e submission hcompile
  refine ⟨argv, hcmd, ?_⟩
  have hW := WriteFile_err env (MkdirAll env w (submissionDir e submission))
    (codeFile e submission) submission.Code
  obtain ⟨f1, f2, f3, f4, _, _⟩ := WriteFile_frame env
    (MkdirAll env w (submissionDir e submission)) (codeFile e submission) submission.Code
  rw [hwrite] at hW
  rcases hw1 : WriteFile env (MkdirAll env w (submissionDir e submission))
    (codeFile e submission) submission.Code with ⟨w1, r⟩
  rw [hw1] at hW f1 f2 f3 f4
  simp only at hW f1 f2 f3 f4
  subst hW
  have hC := compile_err_world env w1 w submission.Language (codeFile e submission)
  obtain ⟨c1, c2, c3, c4, _⟩ := compile_frame env w1 submission.Language (codeFile e submission)
  rw [hcompile] at hC
  rcases hw2 : compile env w1 submission.Language (codeFile e submission) with ⟨w2, r⟩
  rw [hw2] at hC c1 c2 c3 c4
  simp only at hC c1 c2 c3 c4
  subst hC
  have hst : w2.started = w.started := by rw [c1, f1]; rfl
  have hres : w2.results = w.results := by rw [c2, f2]; rfl
  have hsv : w2.saved = w.saved := by rw [c3, f3]; rfl
  have htc : findTestCases w2 submission.ProblemID = findTestCases w submission.ProblemID := by
    simp only [findTestCases, c4, f4]
    rfl
  obtain ⟨l1, l2, l3, l4, _⟩ := runTestCases_judged env submission (codeFile e submission)
    argv hcmd (findTestCases w submission.ProblemID) w2 []
  rw [hst] at l1 l2
  rcases hw3 : runTestCases env submission (codeFile e submission) w2
    (findTestCases w submission.ProblemID) [] with ⟨w3, r⟩
  rw [hw3] at l1 l2 l3 l4
  simp only [List.nil_append] at l1 l2 l3 l4
  subst l1
  obtain ⟨d1, d2, d3, _, _, _⟩ := foldl_dbCreate
    ((judged env submission argv w.started.length
      (findTestCases w submission.ProblemID)).map (resultRow submission)) w3
  simp only [codeFile] at hw1 hw2 hw3
  refine ⟨?_, ?_, ?_, ?_⟩
  · simp only [Evaluate, evaluateBody, hw1, hw2, htc, hw3, RemoveAll]
    split <;> simp [dbSave, d1, l3, hres]
  · simp only [Evaluate, evaluateBody, hw1, hw2, htc, hw3, RemoveAll]
    split <;> simp [dbSave, d2, l2]
  · intro hnone
    simp only [Evaluate, evaluateBody, hw1, hw2, htc, hw3, RemoveAll, hnone]
    simp [d3, l4, hsv]
  · intro last hlast
    simp only [Evaluate, evaluateBody, hw1, hw2, htc, hw3, RemoveAll, hlast]
    simp [dbSave, d3, l4, hsv]

theorem compile_unsupported (env : Env) (w : World) (language file : String)
    (h1 : language ≠ "cpp") (h2 : language ≠ "java") (h3 : language ≠ "python") :
    compile env w language file = (w, some ("unsupported language: " ++ language)) := by
  unfold compile
  split <;> simp_all

/-! ## The file system calls of `Evaluate` -/

theorem runTestCase_fsLog (env : Env) (w : World) (submission : Submission)
    (tc : TestCase) (file : String) :
    (runTestCase env w submission tc file).1.fsLog = w.fsLog := by
  unfold runTestCase
  cases hc : command submission.Language file with
  | error p => rfl
  | ok o =>
    cases o with
    | none => rfl
    | some argv =>
      simp only
      cases hp : env.proc w.started.length argv tc.Input with
      | startError msg => rfl
      | exited waitErr stdout stderr ms =>
        simp only
        split
        · rfl
        · split <;> rfl
      | deadline elapsed => rfl

theorem runTestCases_fsLog (env : Env) (submission : Submission) (file : String) :
    ∀ (tcs : List TestCase) (w : World) (acc : List SubmissionResult),
      (runTestCases env submission file w tcs acc).1.fsLog = w.fsLog := by
  intro tcs
  induction tcs with
  | nil => intro w acc; rfl
  | cons tc rest ih =>
    intro w acc
    have h1 := runTestCase_fsLog env w submission tc file
    rcases hrun : runTestCase env w submission tc file with ⟨w1, r⟩
    rw [hrun] at h1
    simp only at h1
    cases r with
    | error p => simp only [runTestCases, hrun]; exact h1
    | ok result =>
      simp only [runTestCases, hrun]
      split
      · exact h1
      · rw [ih, h1]

/-- The file system calls of `Evaluate` are, on every way out: create the
workspace directory, write the source file, remove the workspace
directory. -/
theorem Evaluate_fsLog (env : Env) (e : Evaluator) (w : World) (submission : Submission) :
    (Evaluate env e w submission).world.fsLog =
      w.fsLog ++ [.mkdirAll (submissionDir e submission),
                  .writeFile (codeFile e submission) submission.Code,
                  .removeAll (submissionDir e submission)] := by
  obtain ⟨_, _, _, _, _, f6⟩ := WriteFile_frame env
    (MkdirAll env w (submissionDir e submission)) (codeFile e submission) submission.Code
  rcases hw1 : WriteFile env (MkdirAll env w (submissionDir e submission))
    (codeFile e submission) submission.Code with ⟨w1, r1⟩
  rw [hw1] at f6
  simp only at f6
  have hlog1 : w1.fsLog = w.fsLog ++ [.mkdirAll (submissionDir e submission),
      .writeFile (codeFile e submission) submission.Code] := by
    rw [f6]
    simp [MkdirAll]
  simp only [codeFile] at hw1
  cases r1 with
  | some err =>
    simp only [Evaluate, evaluateBody, hw1, RemoveAll]
    rw [hlog1]
    simp [codeFile]
  | none =>
    obtain ⟨_, _, _, _, c5⟩ := compile_frame env w1 submission.Language (codeFile e submission)
    rcases hw2 : compile env w1 submission.Language (codeFile e submission) with ⟨w2, r2⟩
    rw [hw2] at c5
    simp only at c5
    simp only [codeFile] at hw2
    cases r2 with
    | some err =>
      simp only [Evaluate, evaluateBody, hw1, hw2, RemoveAll, dbSave]
      rw [c5, hlog1]
      simp [codeFile]
    | none =>
      have l := runTestCases_fsLog env submission (codeFile e submission)
        (findTestCases w2 submission.ProblemID) w2 []
      rcases hw3 : runTestCases env submission (codeFile e submission) w2
        (findTestCases w2 submission.ProblemID) [] with ⟨w3, r3⟩
      rw [hw3] at l
      simp only at l
      simp only [codeFile] at hw3
      cases r3 with
      | error p =>
        simp only [Evaluate, evaluateBody, hw1, hw2, hw3, RemoveAll]
        rw [l, c5, hlog1]
        simp [codeFile]
      | ok results =>
        have d := (foldl_dbCreate results w3).2.2.2.2.1
        simp only [Evaluate, evaluateBody, hw1, hw2, hw3, RemoveAll]
        split
        · simp only
          rw [d, l, c5, hlog1]
          simp [codeFile]
        · simp only [dbSave]
          rw [d, l, c5, hlog1]
          simp [codeFile]

/-! ## The removal of the workspace -/

/-- What is left at or below `path` by `os.RemoveAll(path)` is an entry the
call cannot remove, or lies above one. -/
theorem RemoveAll_left (env : Env) (w : World) (path q : String)
    (hq : q ∈ (RemoveAll env w path).fs) (hat : q = path ∨ below path q = true) :
    ∃ s ∈ w.fs, (s = path ∨ below path s = true) ∧ env.removeFails path s = true ∧
      (s = q ∨ below q s = true) := by
  simp only [RemoveAll, List.mem_filter, decide_eq_true_eq] at hq
  rcases hq.2 with h | h
  · exact absurd hat h
  · simp only [stuck, List.any_eq_true, List.mem_filter, decide_eq_true_eq,
      Bool.and_eq_true] at h
    obtain ⟨s, ⟨hs, hat', hfail⟩, hrel⟩ := h
    exact ⟨s, hs, hat', hfail, hrel⟩

/-- When `os.RemoveAll(path)` can remove every entry, nothing at or below
`path` is left. -/
theorem RemoveAll_clean (env : Env) (w : World) (path : String)
    (hok : ∀ q, env.removeFails path q = false) :
    ∀ q ∈ (RemoveAll env w path).fs, q ≠ path ∧ below path q = false := by
  intro q hq
  by_cases hat : q = path ∨ below path q = true
  · obtain ⟨s, _, _, hfail, _⟩ := RemoveAll_left env w path q hq hat
    rw [hok s] at hfail
    cases hfail
  · simp only [not_or, Bool.not_eq_true] at hat
    exact hat

theorem Evaluate_fs (env : Env) (e : Evaluator) (w : World) (submission : Submission) :
    (Evaluate env e w submission).world.fs =
      (RemoveAll env
        (evaluateBody env (MkdirAll env w (submissionDir e submission)) submission
          (submissionDir e submission)).world
        (submissionDir e submission)).fs := rfl

/-! ## The evaluation of a submission (C1, C2, C3, C4, C8, C10) -/

/-- C1: after the source file is written and `compile` succeeds, `Evaluate`
creates result rows for exactly the test cases up to and including the first
one whose status is not `accepted` (all of them when every status is
`accepted`), in order, whatever outcome the outside world assigns to each
test case; and exactly those test cases have a process started, so that no
later test case is run. -/
theorem Evaluate_stops_at_first_failure (env : Env) (e : Evaluator) (w : World)
    (submission : Submission)
    (hwrite : env.writeErr (codeFile e submission) submission.Code = none)
    (hcompile : (compile env w submission.Language (codeFile e submission)).2 = none) :
    ∃ argv, command submission.Language (codeFile e submission) = .ok (some argv) ∧
      (Evaluate env e w submission).world.results =
        w.results ++
          (takeThrough (fun p => decide (p.2.Status = "accepted"))
            (verdicts env submission argv w.started.length
              (findTestCases w submission.ProblemID))).map (resultRow submission) ∧
      (Evaluate env e w submission).world.started =
        w.started ++
          (takeThrough (fun p => decide (p.2.Status = "accepted"))
            (verdicts env submission argv w.started.length
              (findTestCases w submission.ProblemID))).map (fun p => (argv, p.1.Input)) := by
  obtain ⟨argv, hcmd, hres, hst, _, _⟩ := Evaluate_compiled env e w submission hwrite hcompile
  exact ⟨argv, hcmd, hres, hst⟩

/-- C1 at the test cases A, B, C where A and C are answered correctly and B
is not: exactly the two rows for A and B exist, and two processes were
started. -/
theorem Evaluate_stops_at_first_failure_witness :
    envABC.writeErr (codeFile judge pySubmission) pySubmission.Code = none ∧
    (compile envABC worldABC pySubmission.Language (codeFile judge pySubmission)).2 = none ∧
    (∃ argv, command pySubmission.Language (codeFile judge pySubmission) = .ok (some argv) ∧
      (Evaluate envABC judge worldABC pySubmission).world.results =
        worldABC.results ++
          (takeThrough (fun p => decide (p.2.Status = "accepted"))
            (verdicts envABC pySubmission argv worldABC.started.length
              (findTestCases worldABC pySubmission.ProblemID))).map (resultRow pySubmission) ∧
      (Evaluate envABC judge worldABC pySubmission).world.started =
        worldABC.started ++
          (takeThrough (fun p => decide (p.2.Status = "accepted"))
            (verdicts envABC pySubmission argv worldABC.started.length
              (findTestCases worldABC pySubmission.ProblemID))).map
                (fun p => (argv, p.1.Input))) ∧
    (Evaluate envABC judge worldABC pySubmission).world.results.map
        (fun r => (r.TestCaseID, r.Status)) = [(1, "accepted"), (2, "wrong_answer")] ∧
    (Evaluate envABC judge worldABC pySubmission).world.started.length = 2 :=
  ⟨rfl, rfl, Evaluate_stops_at_first_failure envABC judge worldABC pySubmission rfl rfl,
    by decide, by decide⟩

/-- C2: whenever a call of `Evaluate` creates at least one result row, the
status, the time used and the memory used of the submission afterwards are
those of the last row created, and the submission is saved with them. -/
theorem Evaluate_last_result_wins (env : Env) (e : Evaluator) (w : World)
    (submission : Submission) (last : SubmissionResult)
    (hlast : ((Evaluate env e w submission).world.results.drop w.results.length).getLast? =
      some last) :
    (Evaluate env e w submission).submission.Status = last.Status ∧
    (Evaluate env e w submission).submission.TimeUsed = last.TimeUsed ∧
    (Evaluate env e w submission).submission.MemoryUsed = last.MemoryUsed ∧
    (Evaluate env e w submission).world.saved =
      w.saved ++ [(Evaluate env e w submission).submission] := by
  cases hwrite : env.writeErr (codeFile e submission) submission.Code with
  | some err =>
    obtain ⟨_, _, hres, _⟩ := Evaluate_write_failed env e w submission err hwrite
    rw [hres] at hlast
    simp at hlast
  | none =>
    cases hcompile : (compile env w submission.Language (codeFile e submission)).2 with
    | some err =>
      obtain ⟨_, _, hres, _⟩ := Evaluate_compile_failed env e w submission err hwrite hcompile
      rw [hres] at hlast
      simp at hlast
    | none =>
      obtain ⟨argv, _, hres, _, _, hsome⟩ :=
        Evaluate_compiled env e w submission hwrite hcompile
      rw [hres, List.drop_left] at hlast
      obtain ⟨_, hsub, hsaved⟩ := hsome last hlast
      rw [hsaved, hsub]
      exact ⟨rfl, rfl, rfl, rfl⟩

/-- C2 at the test cases A, B, C: A is accepted after 50 ms, B is answered
wrongly after 5 ms; the submission ends with the status of B and 5 ms, neither
the maximum nor the sum. -/
theorem Evaluate_last_result_wins_witness :
    ((Evaluate envABC judge worldABC pySubmission).world.results.drop
        worldABC.results.length).getLast? =
      some { SubmissionID := 7, TestCaseID := 2, Status := "wrong_answer", TimeUsed := 5,
             MemoryUsed := 0, Error := "Output does not match expected output" } ∧
    (Evaluate envABC judge worldABC pySubmission).submission.Status = "wrong_answer" ∧
    (Evaluate envABC judge worldABC pySubmission).submission.TimeUsed = 5 ∧
    (Evaluate envABC judge worldABC pySubmission).submission.MemoryUsed = 0 ∧
    (Evaluate envABC judge worldABC pySubmission).world.saved =
      worldABC.saved ++ [(Evaluate envABC judge worldABC pySubmission).submission] :=
  ⟨by decide,
    Evaluate_last_result_wins envABC judge worldABC pySubmission
      { SubmissionID := 7, TestCaseID := 2, Status := "wrong_answer", TimeUsed := 5,
        MemoryUsed := 0, Error := "Output does not match expected output" } (by decide)⟩

/-- C3: when the source file is written and `compile` returns an error,
`Evaluate` creates no result row, starts no process for a test case, sets the
status of the submission to `compilation_error`, saves the submission and
returns `nil`. -/
theorem Evaluate_compilation_error (env : Env) (e : Evaluator) (w : World)
    (submission : Submission) (err : String)
    (hwrite : env.writeErr (codeFile e submission) submission.Code = none)
    (hcompile : (compile env w submission.Language (codeFile e submission)).2 = some err) :
    (Evaluate env e w submission).world.results = w.results ∧
    (Evaluate env e w submission).world.started = w.started ∧
    (Evaluate env e w submission).submission.Status = "compilation_error" ∧
    (Evaluate env e w submission).world.saved =
      w.saved ++ [(Evaluate env e w submission).submission] ∧
    (Evaluate env e w submission).ret = .ok none := by
  obtain ⟨hret, hsub, hres, hst, hsaved⟩ :=
    Evaluate_compile_failed env e w submission err hwrite hcompile
  rw [hsaved, hsub]
  exact ⟨hres, hst, rfl, rfl, hret⟩

/-- C3 at a C++ submission that the compiler rejects. -/
theorem Evaluate_compilation_error_witness :
    envBadCompile.writeErr (codeFile judge cppSubmission) cppSubmission.Code = none ∧
    (compile envBadCompile worldABC cppSubmission.Language
      (codeFile judge cppSubmission)).2 = some "exit status 1" ∧
    (Evaluate envBadCompile judge worldABC cppSubmission).world.results = worldABC.results ∧
    (Evaluate envBadCompile judge worldABC cppSubmission).world.started = worldABC.started ∧
    (Evaluate envBadCompile judge worldABC cppSubmission).submission.Status =
      "compilation_error" ∧
    (Evaluate envBadCompile judge worldABC cppSubmission).world.saved =
      worldABC.saved ++ [(Evaluate envBadCompile judge worldABC cppSubmission).submission] ∧
    (Evaluate envBadCompile judge worldABC cppSubmission).ret = .ok none :=
  ⟨rfl, rfl,
    Evaluate_compilation_error envBadCompile judge worldABC cppSubmission "exit status 1"
      rfl rfl⟩

/-- C4, the code at a failing input: `g++` rejects a C++ submission, writing
its diagnostic to standard error and exiting with status 1. `compile` runs
the tool without capturing standard error, so the diagnostic recorded on the
submission is the text of the error returned by `Run`, `exit status 1`, and
not what the tool wrote to standard error. -/
theorem Evaluate_records_exit_status_not_stderr :
    (envBadCompile.tool ["g++", "-std=c++17", "-O2", codeFile judge cppSubmission, "-o",
      codeFile judge cppSubmission ++ ".out"]).stderr =
        "main.cpp:1:1: error: expected unqualified-id" ∧
    (Evaluate envBadCompile judge worldABC cppSubmission).world.toolRuns =
      [["g++", "-std=c++17", "-O2", codeFile judge cppSubmission, "-o",
        codeFile judge cppSubmission ++ ".out"]] ∧
    (Evaluate envBadCompile judge worldABC cppSubmission).submission.Status =
      "compilation_error" ∧
    (Evaluate envBadCompile judge worldABC cppSubmission).submission.Error =
      "exit status 1" ∧
    (Evaluate envBadCompile judge worldABC cppSubmission).submission.Error ≠
      "main.cpp:1:1: error: expected unqualified-id" := by
  refine ⟨rfl, by decide, by decide, by decide, by decide⟩

/-- C8, the claim as stated fails: for a submission with the unsupported
language tag `rust`, `Evaluate` does create the workspace directory and
does write the source into the file `main` inside it before the language is
rejected. -/
theorem Evaluate_unsupported_creates_workspace :
    (Evaluate envPrints7 judge worldABC rustSubmission).world.fsLog =
      [.mkdirAll "/tmp/onlinejudge/submission_7",
       .writeFile "/tmp/onlinejudge/submission_7/main" "fn main()",
       .removeAll "/tmp/onlinejudge/submission_7"] ∧
    (MkdirAll envPrints7 worldABC (submissionDir judge rustSubmission)).fs =
      ["/tmp/onlinejudge/submission_7"] ∧
    (WriteFile envPrints7 (MkdirAll envPrints7 worldABC (submissionDir judge rustSubmission))
      (codeFile judge rustSubmission) rustSubmission.Code).1.fs =
      ["/tmp/onlinejudge/submission_7", "/tmp/onlinejudge/submission_7/main"] := by
  refine ⟨by decide, by decide, by decide⟩

/-- C8 as amended: for a submission whose language tag is none of `cpp`,
`java`, `python`, `Evaluate` creates the workspace directory, writes the
source into the file `main` inside it and removes the workspace again, these
being its only file system calls; it runs no toolchain command, starts no
process and creates no result row; when the removal succeeds it leaves no
path at or below the workspace directory, and whatever is left there is an
entry the removal could not remove or a directory above one; and when the
write succeeds the submission gets the status `compilation_error` with the
diagnostic `unsupported language: ` followed by the tag, is saved once, and
`nil` is returned. -/
theorem Evaluate_unsupported_language (env : Env) (e : Evaluator) (w : World)
    (submission : Submission)
    (h1 : submission.Language ≠ "cpp") (h2 : submission.Language ≠ "java")
    (h3 : submission.Language ≠ "python") :
    (Evaluate env e w submission).world.fsLog =
      w.fsLog ++ [.mkdirAll (submissionDir e submission),
                  .writeFile (Join [submissionDir e submission, "main"]) submission.Code,
                  .removeAll (submissionDir e submission)] ∧
    (Evaluate env e w submission).world.toolRuns = w.toolRuns ∧
    (Evaluate env e w submission).world.started = w.started ∧
    (Evaluate env e w submission).world.results = w.results ∧
    ((∀ q, env.removeFails (submissionDir e submission) q = false) →
      ∀ q ∈ (Evaluate env e w submission).world.fs,
        q ≠ submissionDir e submission ∧ below (submissionDir e submission) q = false) ∧
    (∀ q ∈ (Evaluate env e w submission).world.fs,
      q = submissionDir e submission ∨ below (submissionDir e submission) q = true →
      ∃ s, (s = submissionDir e submission ∨ below (submissionDir e submission) s = true) ∧
        env.removeFails (submissionDir e submission) s = true ∧
        (s = q ∨ below q s = true)) ∧
    (env.writeErr (Join [submissionDir e submission, "main"]) submission.Code = none →
      (Evaluate env e w submission).submission =
        { submission with Status := "compilation_error",
                          Error := "unsupported language: " ++ submission.Language } ∧
      (Evaluate env e w submission).world.saved =
        w.saved ++ [(Evaluate env e w submission).submission] ∧
      (Evaluate env e w submission).ret = .ok none) := by
  have hname : getSourceFileName submission.Language = "main" :=
    getSourceFileName_default submission.Language h1 h2 h3
  have hfs : (∀ q, env.removeFails (submissionDir e submission) q = false) →
      ∀ q ∈ (Evaluate env e w submission).world.fs,
        q ≠ submissionDir e submission ∧ below (submissionDir e submission) q = false := by
    intro hok q hq
    rw [Evaluate_fs] at hq
    exact RemoveAll_clean env _ _ hok q hq
  have hleft : ∀ q ∈ (Evaluate env e w submission).world.fs,
      q = submissionDir e submission ∨ below (submissionDir e submission) q = true →
      ∃ s, (s = submissionDir e submission ∨ below (submissionDir e submission) s = true) ∧
        env.removeFails (submissionDir e submission) s = true ∧
        (s = q ∨ below q s = true) := by
    intro q hq hat
    rw [Evaluate_fs] at hq
    obtain ⟨s, _, hs, hfail, hrel⟩ := RemoveAll_left env _ _ q hq hat
    exact ⟨s, hs, hfail, hrel⟩
  cases hwrite : env.writeErr (Join [submissionDir e submission, "main"]) submission.Code with
  | some err =>
    refine ⟨?_, ?_, ?_, ?_, hfs, hleft, ?_⟩
    · simp [Evaluate, evaluateBody, hname, WriteFile, hwrite, RemoveAll, MkdirAll]
    · simp [Evaluate, evaluateBody, hname, WriteFile, hwrite, RemoveAll, MkdirAll]
    · simp [Evaluate, evaluateBody, hname, WriteFile, hwrite, RemoveAll, MkdirAll]
    · simp [Evaluate, evaluateBody, hname, WriteFile, hwrite, RemoveAll, MkdirAll]
    · intro h
      cases h
  | none =>
    refine ⟨?_, ?_, ?_, ?_, hfs, hleft, ?_⟩
    · simp [Evaluate, evaluateBody, hname, WriteFile, hwrite, RemoveAll, MkdirAll,
        compile_unsupported env _ _ _ h1 h2 h3, dbSave]
    · simp [Evaluate, evaluateBody, hname, WriteFile, hwrite, RemoveAll, MkdirAll,
        compile_unsupported env _ _ _ h1 h2 h3, dbSave]
    · simp [Evaluate, evaluateBody, hname, WriteFile, hwrite, RemoveAll, MkdirAll,
        compile_unsupported env _ _ _ h1 h2 h3, dbSave]
    · simp [Evaluate, evaluateBody, hname, WriteFile, hwrite, RemoveAll, MkdirAll,
        compile_unsupported env _ _ _ h1 h2 h3, dbSave]
    · intro _
      simp [Evaluate, evaluateBody, hname, WriteFile, hwrite, RemoveAll, MkdirAll,
        compile_unsupported env _ _ _ h1 h2 h3, dbSave]

/-- C8 as amended, at a submission with the language tag `rust`. -/
theorem Evaluate_unsupported_language_witness :
    rustSubmission.Language ≠ "cpp" ∧ rustSubmission.Language ≠ "java" ∧
    rustSubmission.Language ≠ "python" ∧
    (Evaluate envPrints7 judge worldABC rustSubmission).world.results = worldABC.results ∧
    (Evaluate envPrints7 judge worldABC rustSubmission).submission.Status =
      "compilation_error" ∧
    (Evaluate envPrints7 judge worldABC rustSubmission).submission.Error =
      "unsupported language: rust" := by
  have h := Evaluate_unsupported_language envPrints7 judge worldABC rustSubmission
    (by decide) (by decide) (by decide)
  obtain ⟨_, _, _, hres, _, _, hok⟩ := h
  obtain ⟨hsub, _, _⟩ := hok rfl
  refine ⟨by decide, by decide, by decide, hres, ?_, ?_⟩
  · rw [hsub]
  · rw [hsub]
    decide

/-- C10, the claim as stated fails: the program under test creates a
directory `ro` with a file `x` in the workspace and takes away the write
permission of `ro`, so that `os.RemoveAll` cannot remove `x`. The test case
is accepted and `Evaluate` returns `nil`, dropping the error of the deferred
removal; the workspace directory still exists. -/
theorem Evaluate_leaves_workspace_when_removal_fails :
    submissionDir judge pySubmission = "/tmp/onlinejudge/submission_7" ∧
    (Evaluate envSticky judge worldSum pySubmission).ret = .ok none ∧
    (Evaluate envSticky judge worldSum pySubmission).submission.Status = "accepted" ∧
    (Evaluate envSticky judge worldSum pySubmission).world.fsLog.getLast? =
      some (.removeAll "/tmp/onlinejudge/submission_7") ∧
    (Evaluate envSticky judge worldSum pySubmission).world.fs =
      ["/tmp/onlinejudge/submission_7", "/tmp/onlinejudge/submission_7/ro",
       "/tmp/onlinejudge/submission_7/ro/x"] ∧
    submissionDir judge pySubmission ∈
      (Evaluate envSticky judge worldSum pySubmission).world.fs := by
  refine ⟨by decide, rfl, by decide, by decide, by decide, by decide⟩

/-- C10 as amended: on every way out of `Evaluate` (the source file cannot
be written, `compile` fails, a test case fails, all test cases are accepted,
a panic), for every behaviour of the outside world, the file system calls
are the creation of the workspace directory `submission_<ID>` under the work
directory, the writing of the source file and, last, the removal of the
workspace directory, whose error is dropped. Whenever the removal can remove
every entry, neither the workspace directory nor any path below it exists
afterwards; and whatever is left at or below the workspace directory is an
entry the removal could not remove, or a directory above such an entry. -/
theorem Evaluate_removes_workspace (env : Env) (e : Evaluator) (w : World)
    (submission : Submission) :
    submissionDir e submission = Join [e.workDir, "submission_" ++ toString submission.ID] ∧
    (Evaluate env e w submission).world.fsLog =
      w.fsLog ++ [.mkdirAll (submissionDir e submission),
                  .writeFile (codeFile e submission) submission.Code,
                  .removeAll (submissionDir e submission)] ∧
    (Evaluate env e w submission).world.fsLog.getLast? =
      some (.removeAll (submissionDir e submission)) ∧
    ((∀ q, env.removeFails (submissionDir e submission) q = false) →
      submissionDir e submission ∉ (Evaluate env e w submission).world.fs ∧
      ∀ q ∈ (Evaluate env e w submission).world.fs,
        below (submissionDir e submission) q = false) ∧
    (∀ q ∈ (Evaluate env e w submission).world.fs,
      q = submissionDir e submission ∨ below (submissionDir e submission) q = true →
      ∃ s, (s = submissionDir e submission ∨ below (submissionDir e submission) s = true) ∧
        env.removeFails (submissionDir e submission) s = true ∧
        (s = q ∨ below q s = true)) := by
  refine ⟨rfl, Evaluate_fsLog env e w submission, ?_, ?_, ?_⟩
  · rw [Evaluate_fsLog]
    simp
  · intro hok
    refine ⟨?_, ?_⟩
    · intro hq
      rw [Evaluate_fs] at hq
      exact (RemoveAll_clean env _ _ hok _ hq).1 rfl
    · intro q hq
      rw [Evaluate_fs] at hq
      exact (RemoveAll_clean env _ _ hok q hq).2
  · intro q hq hat
    rw [Evaluate_fs] at hq
    obtain ⟨s, _, hs, hfail, hrel⟩ := RemoveAll_left env _ _ q hq hat
    exact ⟨s, hs, hfail, hrel⟩

/-- C10 as amended, at an accepted Python submission in an outside world
where every removal succeeds: the workspace directory is gone. -/
theorem Evaluate_removes_workspace_witness :
    (∀ q, envPrints7.removeFails (submissionDir judge pySubmission) q = false) ∧
    (Evaluate envPrints7 judge worldSum pySubmission).submission.Status = "accepted" ∧
    submissionDir judge pySubmission ∉
      (Evaluate envPrints7 judge worldSum pySubmission).world.fs ∧
    (∀ q ∈ (Evaluate envPrints7 judge worldSum pySubmission).world.fs,
      below (submissionDir judge pySubmission) q = false) ∧
    (Evaluate envPrints7 judge worldSum pySubmission).world.fs = [] :=
  ⟨fun _ => rfl, by decide,
    ((Evaluate_removes_workspace envPrints7 judge worldSum pySubmission).2.2.2.1
      (fun _ => rfl)).1,
    ((Evaluate_removes_workspace envPrints7 judge worldSum pySubmission).2.2.2.1
      (fun _ => rfl)).2,
    by decide⟩

/-- Every message published by `Submit` carries the status `pending`. -/
theorem Submit_status_pending (intake : Intake) (req : Request) (code : Nat)
    (msg : SubmissionJSON) (h : Submit intake req = (code, some msg)) :
    (unmarshal msg).Status = "pending" := by
  unfold Submit at h
  split at h
  · cases h
  · split at h
    · cases h
    · dsimp only at h
      split at h
      · cases h
      · split at h
        · cases h
        · split at h
          · cases h
          · rename_i msg' hpub
            injection h with _ h
            injection h with h
            subst h
            unfold PublishSubmission at hpub
            split at hpub
            · injection hpub with hpub
              rw [← hpub]
              rfl
            · cases hpub

theorem verdict_previous (submission : Submission) (st : String) (t m : Int)
    (tc : TestCase) (o : ProcOutcome) :
    verdict { submission with Status := st, TimeUsed := t, MemoryUsed := m } tc o =
      verdict submission tc o := by
  cases o with
  | startError msg => rfl
  | exited waitErr stdout stderr ms =>
    cases waitErr <;> rfl
  | deadline elapsed => rfl

theorem judged_previous (env : Env) (submission : Submission) (st : String) (t m : Int)
    (argv : List String) (n : Nat) (tcs : List TestCase) :
    judged env { submission with Status := st, TimeUsed := t, MemoryUsed := m } argv n tcs =
      judged env submission argv n tcs := by
  simp only [judged, verdicts, verdict_previous]

/-- What `Evaluate` does is the same whatever status, time used and memory
used the submission carried before the call: the same value is returned, the
same rows are created, the same processes are started, and when a row is
created the submission ends with the same status, time used and memory
used. -/
theorem Evaluate_previous_verdict (env : Env) (e : Evaluator) (w : World)
    (submission : Submission) (st : String) (t m : Int) :
    (Evaluate env e w
        { submission with Status := st, TimeUsed := t, MemoryUsed := m }).ret =
      (Evaluate env e w submission).ret ∧
    (Evaluate env e w
        { submission with Status := st, TimeUsed := t, MemoryUsed := m }).world.results =
      (Evaluate env e w submission).world.results ∧
    (Evaluate env e w
        { submission with Status := st, TimeUsed := t, MemoryUsed := m }).world.started =
      (Evaluate env e w submission).world.started ∧
    ((Evaluate env e w submission).world.results.drop w.results.length ≠ [] →
      (Evaluate env e w
          { submission with Status := st, TimeUsed := t, MemoryUsed := m }).submission.Status =
        (Evaluate env e w submission).submission.Status ∧
      (Evaluate env e w
          { submission with Status := st, TimeUsed := t, MemoryUsed := m }).submission.TimeUsed =
        (Evaluate env e w submission).submission.TimeUsed ∧
      (Evaluate env e w
          { submission with Status := st, TimeUsed := t,
                            MemoryUsed := m }).submission.MemoryUsed =
        (Evaluate env e w submission).submission.MemoryUsed) := by
  cases hwrite : env.writeErr (codeFile e submission) submission.Code with
  | some err =>
    obtain ⟨a1, _, a3, a4, _⟩ := Evaluate_write_failed env e w submission err hwrite
    obtain ⟨b1, _, b3, b4, _⟩ := Evaluate_write_failed env e w
      { submission with Status := st, TimeUsed := t, MemoryUsed := m } err hwrite
    refine ⟨by rw [a1, b1], by rw [a3, b3], by rw [a4, b4], ?_⟩
    intro hne
    rw [a3] at hne
    simp at hne
  | none =>
    cases hcompile : (compile env w submission.Language (codeFile e submission)).2 with
    | some err =>
      obtain ⟨a1, _, a3, a4, _⟩ :=
        Evaluate_compile_failed env e w submission err hwrite hcompile
      obtain ⟨b1, _, b3, b4, _⟩ := Evaluate_compile_failed env e w
        { submission with Status := st, TimeUsed := t, MemoryUsed := m } err hwrite hcompile
      refine ⟨by rw [a1, b1], by rw [a3, b3], by rw [a4, b4], ?_⟩
      intro hne
      rw [a3] at hne
      simp at hne
    | none =>
      obtain ⟨argv, acmd, a3, a4, anone, asome⟩ :=
        Evaluate_compiled env e w submission hwrite hcompile
      obtain ⟨argv', bcmd, b3, b4, bnone, bsome⟩ := Evaluate_compiled env e w
        { submission with Status := st, TimeUsed := t, MemoryUsed := m } hwrite hcompile
      have hargv : argv' = argv := by
        have h : command submission.Language (codeFile e submission) = .ok (some argv') := bcmd
        rw [acmd] at h
        injection h with h
        injection h with h
        exact h.symm
      subst hargv
      have hrows : (judged env { submission with Status := st, TimeUsed := t, MemoryUsed := m }
          argv' w.started.length (findTestCases w submission.ProblemID)).map
            (resultRow { submission with Status := st, TimeUsed := t, MemoryUsed := m }) =
          (judged env submission argv' w.started.length
            (findTestCases w submission.ProblemID)).map (resultRow submission) := by
        rw [judged_previous]
        rfl
      have b3' : (Evaluate env e w
          { submission with Status := st, TimeUsed := t, MemoryUsed := m }).world.results =
          w.results ++ (judged env submission argv' w.started.length
            (findTestCases w submission.ProblemID)).map (resultRow submission) := by
        rw [← hrows]
        exact b3
      have b4' : (Evaluate env e w
          { submission with Status := st, TimeUsed := t, MemoryUsed := m }).world.started =
          w.started ++ (judged env submission argv' w.started.length
            (findTestCases w submission.ProblemID)).map (fun p => (argv', p.1.Input)) := by
        rw [← judged_previous env submission st t m]
        exact b4
      cases hlast : ((judged env submission argv' w.started.length
          (findTestCases w submission.ProblemID)).map (resultRow submission)).getLast? with
      | none =>
        have hlast' : ((judged env
            { submission with Status := st, TimeUsed := t, MemoryUsed := m } argv'
            w.started.length (findTestCases w submission.ProblemID)).map
              (resultRow { submission with Status := st, TimeUsed := t, MemoryUsed := m })
            ).getLast? = none := by
          rw [hrows]
          exact hlast
        refine ⟨by rw [(anone hlast).1, (bnone hlast').1], by rw [a3, b3'], by rw [a4, b4'], ?_⟩
        intro hne
        rw [a3, List.drop_left] at hne
        rw [List.getLast?_eq_none_iff] at hlast
        exact absurd hlast hne
      | some last =>
        have hlast' : ((judged env
            { submission with Status := st, TimeUsed := t, MemoryUsed := m } argv'
            w.started.length (findTestCases w submission.ProblemID)).map
              (resultRow { submission with Status := st, TimeUsed := t, MemoryUsed := m })
            ).getLast? = some last := by
          rw [hrows]
          exact hlast
        obtain ⟨x1, x2, _⟩ := asome last hlast
        obtain ⟨y1, y2, _⟩ := bsome last hlast'
        refine ⟨by rw [x1, y1], by rw [a3, b3'], by rw [a4, b4'], ?_⟩
        intro _
        rw [x2, y2]
        exact ⟨rfl, rfl, rfl⟩

/-! ## Repeated and failed evaluations (C11, C12, C17) -/

/-- C11, the claim as stated fails: a submission whose status is the
terminal verdict `accepted` (50 ms) is evaluated again; this time the second
test case is answered wrongly, and the status regresses to `wrong_answer`
with 5 ms. -/
theorem Evaluate_overwrites_terminal_verdict :
    acceptedSubmission.Status = "accepted" ∧
    acceptedSubmission.TimeUsed = 50 ∧
    (Evaluate envABC judge worldABC acceptedSubmission).submission.Status = "wrong_answer" ∧
    (Evaluate envABC judge worldABC acceptedSubmission).submission.TimeUsed = 5 := by
  refine ⟨rfl, rfl, by decide, by decide⟩

/-- C11 as amended: `Evaluate` does not consult the status of the
submission, so a terminal verdict is no guard. Whatever the status before
the call: when the source file cannot be written the submission is left as
it was; when `compile` fails the status becomes `compilation_error`, time
used and memory used staying as they were; and when at least one result row
is created, status, time used and memory used are overwritten with those of
the last row. What the call returns, the rows it creates, the processes it
starts and, when a row is created, the status, time used and memory used it
ends with are the same for every status, time used and memory used the
submission carried before. -/
theorem Evaluate_status_after_rerun (env : Env) (e : Evaluator) (w : World)
    (submission : Submission) :
    (∀ err, env.writeErr (codeFile e submission) submission.Code = some err →
      (Evaluate env e w submission).submission = submission) ∧
    (∀ err, env.writeErr (codeFile e submission) submission.Code = none →
      (compile env w submission.Language (codeFile e submission)).2 = some err →
      (Evaluate env e w submission).submission.Status = "compilation_error" ∧
      (Evaluate env e w submission).submission.TimeUsed = submission.TimeUsed ∧
      (Evaluate env e w submission).submission.MemoryUsed = submission.MemoryUsed) ∧
    (∀ last,
      ((Evaluate env e w submission).world.results.drop w.results.length).getLast? =
        some last →
      (Evaluate env e w submission).submission.Status = last.Status ∧
      (Evaluate env e w submission).submission.TimeUsed = last.TimeUsed ∧
      (Evaluate env e w submission).submission.MemoryUsed = last.MemoryUsed) ∧
    (∀ (st : String) (t m : Int),
      (Evaluate env e w
          { submission with Status := st, TimeUsed := t, MemoryUsed := m }).ret =
        (Evaluate env e w submission).ret ∧
      (Evaluate env e w
          { submission with Status := st, TimeUsed := t, MemoryUsed := m }).world.results =
        (Evaluate env e w submission).world.results ∧
      (Evaluate env e w
          { submission with Status := st, TimeUsed := t, MemoryUsed := m }).world.started =
        (Evaluate env e w submission).world.started ∧
      ((Evaluate env e w submission).world.results.drop w.results.length ≠ [] →
        (Evaluate env e w
            { submission with Status := st, TimeUsed := t,
                              MemoryUsed := m }).submission.Status =
          (Evaluate env e w submission).submission.Status ∧
        (Evaluate env e w
            { submission with Status := st, TimeUsed := t,
                              MemoryUsed := m }).submission.TimeUsed =
          (Evaluate env e w submission).submission.TimeUsed ∧
        (Evaluate env e w
            { submission with Status := st, TimeUsed := t,
                              MemoryUsed := m }).submission.MemoryUsed =
          (Evaluate env e w submission).submission.MemoryUsed)) := by
  refine ⟨?_, ?_, ?_, Evaluate_previous_verdict env e w submission⟩
  · intro err hwrite
    exact (Evaluate_write_failed env e w submission err hwrite).2.1
  · intro err hwrite hcompile
    obtain ⟨_, hsub, _⟩ := Evaluate_compile_failed env e w submission err hwrite hcompile
    rw [hsub]
    exact ⟨rfl, rfl, rfl⟩
  · intro last hlast
    cases hwrite : env.writeErr (codeFile e submission) submission.Code with
    | some err =>
      obtain ⟨_, _, hres, _⟩ := Evaluate_write_failed env e w submission err hwrite
      rw [hres] at hlast
      simp at hlast
    | none =>
      cases hcompile : (compile env w submission.Language (codeFile e submission)).2 with
      | some err =>
        obtain ⟨_, _, hres, _⟩ :=
          Evaluate_compile_failed env e w submission err hwrite hcompile
        rw [hres] at hlast
        simp at hlast
      | none =>
        obtain ⟨argv, _, hres, _, _, hsome⟩ :=
          Evaluate_compiled env e w submission hwrite hcompile
        rw [hres, List.drop_left] at hlast
        obtain ⟨_, hsub, _⟩ := hsome last hlast
        rw [hsub]
        exact ⟨rfl, rfl, rfl⟩

/-- C11 as amended, at the accepted submission evaluated again: the last
row created is the wrong answer to test case B, and its values replace the
terminal verdict. -/
theorem Evaluate_status_after_rerun_witness :
    ((Evaluate envABC judge worldABC acceptedSubmission).world.results.drop
        worldABC.results.length).getLast? =
      some { SubmissionID := 7, TestCaseID := 2, Status := "wrong_answer", TimeUsed := 5,
             MemoryUsed := 0, Error := "Output does not match expected output" } ∧
    (Evaluate envABC judge worldABC acceptedSubmission).submission.Status = "wrong_answer" ∧
    (Evaluate envABC judge worldABC acceptedSubmission).submission.TimeUsed = 5 ∧
    (Evaluate envABC judge worldABC acceptedSubmission).submission.MemoryUsed = 0 :=
  ⟨by decide,
    (Evaluate_status_after_rerun envABC judge worldABC acceptedSubmission).2.2.1
      { SubmissionID := 7, TestCaseID := 2, Status := "wrong_answer", TimeUsed := 5,
        MemoryUsed := 0, Error := "Output does not match expected output" } (by decide)⟩

/-- C12: whenever `Evaluate` returns an error, the source file could not be
written and the error says so; no result row is created, the submission is
not saved, no toolchain command is run and no process is started; the
submission record is left exactly as it was, so that a pending submission
is still pending, as is every submission that reached the evaluator in a
message published by `Submit`. -/
theorem Evaluate_error_is_atomic (env : Env) (e : Evaluator) (w : World)
    (submission : Submission) (err : String)
    (hret : (Evaluate env e w submission).ret = .ok (some err)) :
    (∃ werr, env.writeErr (codeFile e submission) submission.Code = some werr ∧
      err = "failed to write code file: " ++ werr) ∧
    (Evaluate env e w submission).world.results = w.results ∧
    (Evaluate env e w submission).world.saved = w.saved ∧
    (Evaluate env e w submission).world.toolRuns = w.toolRuns ∧
    (Evaluate env e w submission).world.started = w.started ∧
    (Evaluate env e w submission).submission = submission ∧
    (submission.Status = "pending" →
      (Evaluate env e w submission).submission.Status = "pending") ∧
    (∀ (intake : Intake) (req : Request) (code : Nat) (msg : SubmissionJSON),
      Submit intake req = (code, some msg) → submission = unmarshal msg →
      (Evaluate env e w submission).submission.Status = "pending") := by
  cases hwrite : env.writeErr (codeFile e submission) submission.Code with
  | some werr =>
    obtain ⟨h1, h2, h3, h4, h5, h6⟩ := Evaluate_write_failed env e w submission werr hwrite
    rw [h1] at hret
    refine ⟨⟨werr, rfl, ?_⟩, h3, h5, h6, h4, h2, ?_, ?_⟩
    · injection hret with hret
      injection hret with hret
      exact hret.symm
    · intro hp
      rw [h2]
      exact hp
    · intro intake req code msg hsub hmsg
      rw [h2, hmsg]
      exact Submit_status_pending intake req code msg hsub
  | none =>
    cases hcompile : (compile env w submission.Language (codeFile e submission)).2 with
    | some cerr =>
      obtain ⟨h1, _⟩ := Evaluate_compile_failed env e w submission cerr hwrite hcompile
      rw [h1] at hret
      cases hret
    | none =>
      obtain ⟨argv, _, _, _, hnone, hsome⟩ :=
        Evaluate_compiled env e w submission hwrite hcompile
      cases hl : ((judged env submission argv w.started.length
          (findTestCases w submission.ProblemID)).map (resultRow submission)).getLast? with
      | none =>
        rw [(hnone hl).1] at hret
        cases hret
      | some last =>
        rw [(hsome last hl).1] at hret
        cases hret

/-- C12 at a pending submission on a full disk. -/
theorem Evaluate_error_is_atomic_witness :
    (Evaluate envDiskFull judge worldABC pySubmission).ret =
      .ok (some "failed to write code file: no space left on device") ∧
    (Evaluate envDiskFull judge worldABC pySubmission).world.results = worldABC.results ∧
    (Evaluate envDiskFull judge worldABC pySubmission).world.saved = worldABC.saved ∧
    (Evaluate envDiskFull judge worldABC pySubmission).submission = pySubmission ∧
    (Evaluate envDiskFull judge worldABC pySubmission).submission.Status = "pending" := by
  have hret : (Evaluate envDiskFull judge worldABC pySubmission).ret =
      .ok (some "failed to write code file: no space left on device") := rfl
  obtain ⟨_, h2, h3, _, _, h6, h7, _⟩ :=
    Evaluate_error_is_atomic envDiskFull judge worldABC pySubmission
      "failed to write code file: no space left on device" hret
  exact ⟨hret, h2, h3, h6, h7 rfl⟩

/-- C17, the code at a failing input: a Python submission whose source is
written and needs no compilation, for a problem without test cases. The
loop leaves the list of results empty, and indexing its last element
panics; the submission is neither updated nor saved. -/
theorem Evaluate_panics_without_test_cases :
    envPrints7.writeErr (codeFile judge orphanSubmission) orphanSubmission.Code = none ∧
    (compile envPrints7 worldABC orphanSubmission.Language
      (codeFile judge orphanSubmission)).2 = none ∧
    findTestCases worldABC orphanSubmission.ProblemID = [] ∧
    (Evaluate envPrints7 judge worldABC orphanSubmission).ret =
      .error "runtime error: index out of range [-1]" ∧
    (Evaluate envPrints7 judge worldABC orphanSubmission).submission.Status = "pending" ∧
    (Evaluate envPrints7 judge worldABC orphanSubmission).world.saved = [] := by
  refine ⟨rfl, rfl, by decide, rfl, by decide, by decide⟩

/-! ## The judged test cases as a list -/

theorem takeThrough_map_take {α β : Type} (p : α → Bool) (f : α → β) (xs : List α) :
    (takeThrough p xs).map f = (xs.map f).take (takeThrough p xs).length := by
  induction xs with
  | nil => simp [takeThrough_nil]
  | cons x rest ih =>
    rw [takeThrough_cons]
    by_cases h : p x
    · simp only [h, if_true, List.map_cons, List.length_cons, List.take_succ_cons]
      rw [ih]
    · simp [h]

theorem takeThrough_getLast {α : Type} (p : α → Bool) (xs : List α) (hne : xs ≠ []) :
    ∃ l, (takeThrough p xs).getLast? = some l ∧
      (p l = true ↔ ∀ x ∈ xs, p x = true) ∧
      (p l = true → takeThrough p xs = xs) := by
  induction xs with
  | nil => exact absurd rfl hne
  | cons x rest ih =>
    rw [takeThrough_cons]
    by_cases h : p x
    · simp only [h, if_true]
      cases rest with
      | nil => exact ⟨x, by simp [takeThrough_nil], by simp [h], by simp [takeThrough_nil]⟩
      | cons y ys =>
        obtain ⟨l, hl, hiff, hall⟩ := ih (by simp)
        refine ⟨l, ?_, ?_, ?_⟩
        · cases ht : takeThrough p (y :: ys) with
          | nil => rw [ht] at hl; simp at hl
          | cons a as =>
            rw [ht] at hl
            rw [List.getLast?_cons_cons]
            exact hl
        · rw [hiff]
          simp [h]
        · intro hp
          rw [hall hp]
    · refine ⟨x, by simp [h], ?_, ?_⟩
      · simp [h]
      · intro hp
        exact absurd hp h

theorem takeThrough_append_fail {α : Type} (p : α → Bool) (a : List α) (x : α) (b : List α)
    (ha : ∀ y ∈ a, p y = true) (hx : p x = false) :
    takeThrough p (a ++ x :: b) = a ++ [x] := by
  induction a with
  | nil => simp [takeThrough_cons, hx]
  | cons y ys ih =>
    have hy : p y = true := ha y (by simp)
    have hys : ∀ z ∈ ys, p z = true := fun z hz => ha z (by simp [hz])
    rw [List.cons_append, takeThrough_cons, ih hys]
    simp [hy]

theorem verdicts_map_fst (env : Env) (submission : Submission) (argv : List String)
    (tcs : List TestCase) (n : Nat) :
    (verdicts env submission argv n tcs).map Prod.fst = tcs := by
  induction tcs generalizing n with
  | nil => simp [verdicts]
  | cons tc rest ih =>
    have := ih (n + 1)
    simp only [verdicts, List.enumFrom_cons, List.map_cons] at this ⊢
    rw [this]

theorem verdicts_append (env : Env) (submission : Submission) (argv : List String)
    (a b : List TestCase) (n : Nat) :
    verdicts env submission argv n (a ++ b) =
      verdicts env submission argv n a ++ verdicts env submission argv (n + a.length) b := by
  induction a generalizing n with
  | nil => simp [verdicts]
  | cons tc rest ih =>
    have := ih (n + 1)
    simp only [verdicts, List.cons_append, List.enumFrom_cons, List.map_cons,
      List.length_cons] at this ⊢
    rw [this]
    have harith : n + 1 + rest.length = n + (rest.length + 1) := by omega
    rw [harith]

theorem verdicts_cons (env : Env) (submission : Submission) (argv : List String)
    (tc : TestCase) (rest : List TestCase) (n : Nat) :
    verdicts env submission argv n (tc :: rest) =
      (tc, verdict submission tc (env.proc n argv tc.Input)) ::
        verdicts env submission argv (n + 1) rest := by
  simp [verdicts, List.enumFrom_cons]

/-! ## Order of the results, acceptance, and a process that cannot start
(C13, C14, C18) -/

/-- C14: the result rows created by a call of `Evaluate` are appended to the
table in the order of the loaded test cases: the `i`-th new row carries the
identifier of the `i`-th test case and the identifier of the submission, and
there is exactly one new row per process started, the `i`-th process being
fed the input of the `i`-th test case. -/
theorem Evaluate_rows_follow_test_cases (env : Env) (e : Evaluator) (w : World)
    (submission : Submission) :
    ∃ rows : List SubmissionResult,
      (Evaluate env e w submission).world.results = w.results ++ rows ∧
      rows.map (fun r => r.TestCaseID) =
        ((findTestCases w submission.ProblemID).take rows.length).map (fun tc => tc.ID) ∧
      (∀ r ∈ rows, r.SubmissionID = submission.ID) ∧
      ((Evaluate env e w submission).world.started.drop w.started.length).map Prod.snd =
        ((findTestCases w submission.ProblemID).take rows.length).map (fun tc => tc.Input) := by
  cases hwrite : env.writeErr (codeFile e submission) submission.Code with
  | some err =>
    obtain ⟨_, _, hres, hst, _⟩ := Evaluate_write_failed env e w submission err hwrite
    exact ⟨[], by simp [hres], by simp, by simp, by simp [hst]⟩
  | none =>
    cases hcompile : (compile env w submission.Language (codeFile e submission)).2 with
    | some err =>
      obtain ⟨_, _, hres, hst, _⟩ :=
        Evaluate_compile_failed env e w submission err hwrite hcompile
      exact ⟨[], by simp [hres], by simp, by simp, by simp [hst]⟩
    | none =>
      obtain ⟨argv, _, hres, hst, _, _⟩ :=
        Evaluate_compiled env e w submission hwrite hcompile
      refine ⟨_, hres, ?_, ?_, ?_⟩
      · have h := takeThrough_map_take (fun p => decide (p.2.Status = "accepted"))
          (fun p : TestCase × EvaluationResult => p.1.ID)
          (verdicts env submission argv w.started.length
            (findTestCases w submission.ProblemID))
        have hfst : (verdicts env submission argv w.started.length
            (findTestCases w submission.ProblemID)).map
              (fun p : TestCase × EvaluationResult => p.1.ID) =
            (findTestCases w submission.ProblemID).map (fun tc => tc.ID) := by
          conv_rhs => rw [← verdicts_map_fst env submission argv
            (findTestCases w submission.ProblemID) w.started.length]
          simp [List.map_map]
        rw [hfst] at h
        simp only [judged, List.map_map, List.length_map, List.map_take]
        exact h
      · intro r hr
        simp only [List.mem_map] at hr
        obtain ⟨p, _, hp⟩ := hr
        rw [← hp]
        rfl
      · have h := takeThrough_map_take (fun p => decide (p.2.Status = "accepted"))
          (fun p : TestCase × EvaluationResult => p.1.Input)
          (verdicts env submission argv w.started.length
            (findTestCases w submission.ProblemID))
        have hfst : (verdicts env submission argv w.started.length
            (findTestCases w submission.ProblemID)).map
              (fun p : TestCase × EvaluationResult => p.1.Input) =
            (findTestCases w submission.ProblemID).map (fun tc => tc.Input) := by
          conv_rhs => rw [← verdicts_map_fst env submission argv
            (findTestCases w submission.ProblemID) w.started.length]
          simp [List.map_map]
        rw [hfst] at h
        rw [hst, List.drop_left]
        simp only [judged, List.map_map, List.length_map, List.map_take]
        exact h

/-- C14 at the test cases A, B, C of which A and B are judged: the new rows
carry the test case identifiers 1 and 2 and the submission identifier 7. -/
theorem Evaluate_rows_follow_test_cases_witness :
    (Evaluate envABC judge worldABC pySubmission).world.results.map
        (fun r => (r.SubmissionID, r.TestCaseID)) = [(7, 1), (7, 2)] ∧
    ∃ rows : List SubmissionResult,
      (Evaluate envABC judge worldABC pySubmission).world.results = worldABC.results ++ rows ∧
      rows.map (fun r => r.TestCaseID) =
        ((findTestCases worldABC pySubmission.ProblemID).take rows.length).map
          (fun tc => tc.ID) ∧
      (∀ r ∈ rows, r.SubmissionID = pySubmission.ID) ∧
      ((Evaluate envABC judge worldABC pySubmission).world.started.drop
          worldABC.started.length).map Prod.snd =
        ((findTestCases worldABC pySubmission.ProblemID).take rows.length).map
          (fun tc => tc.Input) :=
  ⟨by decide, Evaluate_rows_follow_test_cases envABC judge worldABC pySubmission⟩

/-- C18: when the source file is written, `compile` succeeds and the problem
has at least one test case, the status of the submission after `Evaluate` is
`accepted` exactly when the result of every test case is `accepted`, and then
there are as many new result rows as test cases. -/
theorem Evaluate_accepted_iff_all_accepted (env : Env) (e : Evaluator) (w : World)
    (submission : Submission)
    (hwrite : env.writeErr (codeFile e submission) submission.Code = none)
    (hcompile : (compile env w submission.Language (codeFile e submission)).2 = none)
    (htcs : findTestCases w submission.ProblemID ≠ []) :
    ∃ argv, command submission.Language (codeFile e submission) = .ok (some argv) ∧
      ((Evaluate env e w submission).submission.Status = "accepted" ↔
        ∀ p ∈ verdicts env submission argv w.started.length
          (findTestCases w submission.ProblemID), p.2.Status = "accepted") ∧
      ((Evaluate env e w submission).submission.Status = "accepted" →
        ((Evaluate env e w submission).world.results.drop w.results.length).length =
          (findTestCases w submission.ProblemID).length) := by
  obtain ⟨argv, hcmd, hres, _, _, hsome⟩ :=
    Evaluate_compiled env e w submission hwrite hcompile
  refine ⟨argv, hcmd, ?_⟩
  have hne : verdicts env submission argv w.started.length
      (findTestCases w submission.ProblemID) ≠ [] := by
    intro h
    apply htcs
    rw [← verdicts_map_fst env submission argv (findTestCases w submission.ProblemID)
      w.started.length, h]
    rfl
  obtain ⟨l, hl, hiff, hall⟩ :=
    takeThrough_getLast (fun p : TestCase × EvaluationResult =>
      decide (p.2.Status = "accepted")) _ hne
  have hlast : ((judged env submission argv w.started.length
      (findTestCases w submission.ProblemID)).map (resultRow submission)).getLast? =
        some (resultRow submission l) := by
    rw [List.getLast?_map]
    simp only [judged]
    rw [hl]
    rfl
  obtain ⟨_, hsub, _⟩ := hsome _ hlast
  have hstatus : (Evaluate env e w submission).submission.Status = l.2.Status := by
    rw [hsub]
    rfl
  simp only [decide_eq_true_eq] at hiff hall
  refine ⟨?_, ?_⟩
  · rw [hstatus]
    exact hiff
  · intro hacc
    rw [hstatus] at hacc
    rw [hres, List.drop_left]
    simp only [judged, List.length_map]
    rw [hall hacc]
    have := congrArg List.length (verdicts_map_fst env submission argv
      (findTestCases w submission.ProblemID) w.started.length)
    simpa using this

/-- C18 at the single test case with input `3 4` and expected output `7`,
which the program prints: one result row with status `accepted`, and the
submission is accepted. -/
theorem Evaluate_accepted_iff_all_accepted_witness :
    envPrints7.writeErr (codeFile judge pySubmission) pySubmission.Code = none ∧
    (compile envPrints7 worldSum pySubmission.Language (codeFile judge pySubmission)).2 =
      none ∧
    findTestCases worldSum pySubmission.ProblemID ≠ [] ∧
    (∃ argv, command pySubmission.Language (codeFile judge pySubmission) = .ok (some argv) ∧
      ((Evaluate envPrints7 judge worldSum pySubmission).submission.Status = "accepted" ↔
        ∀ p ∈ verdicts envPrints7 pySubmission argv worldSum.started.length
          (findTestCases worldSum pySubmission.ProblemID), p.2.Status = "accepted") ∧
      ((Evaluate envPrints7 judge worldSum pySubmission).submission.Status = "accepted" →
        ((Evaluate envPrints7 judge worldSum pySubmission).world.results.drop
            worldSum.results.length).length =
          (findTestCases worldSum pySubmission.ProblemID).length)) ∧
    (Evaluate envPrints7 judge worldSum pySubmission).submission.Status = "accepted" ∧
    (Evaluate envPrints7 judge worldSum pySubmission).world.results.map
      (fun r => r.Status) = ["accepted"] :=
  ⟨rfl, rfl, by decide,
    Evaluate_accepted_iff_all_accepted envPrints7 judge worldSum pySubmission rfl rfl
      (by decide),
    by decide, by decide⟩

/-- C13, the claim as stated fails: when no process can be started,
`Evaluate` returns `nil`; the fault is recorded as the verdict
`runtime_error` on the first test case and on the submission, which is
saved. -/
theorem Evaluate_start_failure_returns_nil :
    envNoSpawn.proc 0 ["python", codeFile judge pySubmission] "3 4\n" =
      .startError "fork/exec: resource temporarily unavailable" ∧
    (Evaluate envNoSpawn judge worldABC pySubmission).ret = .ok none ∧
    (Evaluate envNoSpawn judge worldABC pySubmission).world.results =
      [{ SubmissionID := 7, TestCaseID := 1, Status := "runtime_error", TimeUsed := 0,
         MemoryUsed := 0, Error := "fork/exec: resource temporarily unavailable" }] ∧
    (Evaluate envNoSpawn judge worldABC pySubmission).submission.Status = "runtime_error" ∧
    (Evaluate envNoSpawn judge worldABC pySubmission).world.saved.map (fun s => s.Status) =
      ["runtime_error"] := by
  refine ⟨rfl, rfl, by decide, by decide, by decide⟩

/-- C13 as amended: when the process for a test case cannot be started
(the test cases before it being accepted), `runTestCase` turns the fault
into the result `runtime_error` carrying the text of the start error;
`Evaluate` records it as the last result row, judges no later test case,
copies it onto the submission, saves the submission and returns `nil`. -/
theorem Evaluate_start_failure_is_verdict (env : Env) (e : Evaluator) (w : World)
    (submission : Submission) (argv : List String)
    (before : List TestCase) (tc : TestCase) (later : List TestCase) (msg : String)
    (hwrite : env.writeErr (codeFile e submission) submission.Code = none)
    (hcompile : (compile env w submission.Language (codeFile e submission)).2 = none)
    (hcmd : command submission.Language (codeFile e submission) = .ok (some argv))
    (htcs : findTestCases w submission.ProblemID = before ++ tc :: later)
    (hbefore : ∀ p ∈ verdicts env submission argv w.started.length before,
      p.2.Status = "accepted")
    (hstart : env.proc (w.started.length + before.length) argv tc.Input = .startError msg) :
    (Evaluate env e w submission).ret = .ok none ∧
    (Evaluate env e w submission).world.results =
      w.results ++
        (verdicts env submission argv w.started.length before).map (resultRow submission) ++
        [{ SubmissionID := submission.ID, TestCaseID := tc.ID, Status := "runtime_error",
           TimeUsed := 0, MemoryUsed := 0, Error := msg }] ∧
    (Evaluate env e w submission).submission =
      { submission with Status := "runtime_error", TimeUsed := 0, MemoryUsed := 0 } ∧
    (Evaluate env e w submission).world.saved =
      w.saved ++ [(Evaluate env e w submission).submission] := by
  obtain ⟨argv', hcmd', hres, _, _, hsome⟩ :=
    Evaluate_compiled env e w submission hwrite hcompile
  rw [hcmd] at hcmd'
  injection hcmd' with hcmd'
  injection hcmd' with hcmd'
  subst hcmd'
  have hj : judged env submission argv w.started.length
      (findTestCases w submission.ProblemID) =
      verdicts env submission argv w.started.length before ++
        [(tc, { Status := "runtime_error", Error := msg })] := by
    simp only [judged]
    rw [htcs, verdicts_append, verdicts_cons, hstart]
    apply takeThrough_append_fail
    · intro y hy
      simpa using hbefore y hy
    · simp [verdict]
  rw [hj] at hres hsome
  have hlast : ((verdicts env submission argv w.started.length before ++
      [(tc, ({ Status := "runtime_error", Error := msg } : EvaluationResult))]).map
        (resultRow submission)).getLast? =
      some { SubmissionID := submission.ID, TestCaseID := tc.ID, Status := "runtime_error",
             TimeUsed := 0, MemoryUsed := 0, Error := msg } := by
    simp [resultRow]
  obtain ⟨hret, hsub, hsaved⟩ := hsome _ hlast
  refine ⟨hret, ?_, hsub, ?_⟩
  · rw [hres]
    simp [resultRow]
  · rw [hsaved, hsub]

/-- C13 as amended, at the test cases A, B, C when no process can be
started: the fault on A is the verdict. -/
theorem Evaluate_start_failure_is_verdict_witness :
    envNoSpawn.writeErr (codeFile judge pySubmission) pySubmission.Code = none ∧
    (compile envNoSpawn worldABC pySubmission.Language (codeFile judge pySubmission)).2 =
      none ∧
    command pySubmission.Language (codeFile judge pySubmission) =
      .ok (some ["python", codeFile judge pySubmission]) ∧
    envNoSpawn.proc (worldABC.started.length + ([] : List TestCase).length)
      ["python", codeFile judge pySubmission] "3 4\n" =
        .startError "fork/exec: resource temporarily unavailable" ∧
    (Evaluate envNoSpawn judge worldABC pySubmission).ret = .ok none ∧
    (Evaluate envNoSpawn judge worldABC pySubmission).submission =
      { pySubmission with Status := "runtime_error", TimeUsed := 0, MemoryUsed := 0 } := by
  obtain ⟨h1, _, h3, _⟩ :=
    Evaluate_start_failure_is_verdict envNoSpawn judge worldABC pySubmission
      ["python", codeFile judge pySubmission] []
      { ID := 1, ProblemID := 1, Input := "3 4\n", Output := "7\n" }
      [{ ID := 2, ProblemID := 1, Input := "5 2\n", Output := "7\n" },
       { ID := 3, ProblemID := 1, Input := "1 6\n", Output := "7\n" }]
      "fork/exec: resource temporarily unavailable" rfl rfl rfl (by decide)
      (by intro p hp; simp [verdicts] at hp) rfl
  exact ⟨rfl, rfl, rfl, rfl, h1, h3⟩

/-! ## Paths: cleaning a clean path again -/

theorem cleanChars_cons (c : Char) (cs : List Char) :
    cleanChars (c :: cs) =
      render (decide (c = '/'))
        ((splitSep (c :: cs)).foldl (cleanStep (decide (c = '/'))) []) := rfl

theorem splitSep_no_sep (p : List Char) : ∀ el ∈ splitSep p, '/' ∉ el := by
  induction p with
  | nil => simp [splitSep]
  | cons c cs ih =>
    by_cases hc : c = '/'
    · intro el hel
      simp only [splitSep, hc, if_true, List.mem_cons] at hel
      rcases hel with h | h
      · simp [h]
      · exact ih el h
    · have hne := splitSep_ne_nil cs
      cases hs : splitSep cs with
      | nil => exact absurd hs hne
      | cons x xs =>
        rw [hs] at ih
        intro el hel
        simp only [splitSep, hc, if_false, hs, List.mem_cons] at hel
        rcases hel with h | h
        · rw [h]
          have hx := ih x (by simp)
          intro hmem
          simp only [List.mem_cons] at hmem
          rcases hmem with h1 | h1
          · exact hc h1.symm
          · exact hx h1
        · exact ih el (by simp [h])

theorem cleanStep_normal (r : Bool) (st : List (List Char)) (el : List Char)
    (hst : NormalStack r st) (hel : '/' ∉ el) : NormalStack r (cleanStep r st el) := by
  unfold cleanStep
  by_cases h1 : el = [] ∨ el = ['.']
  · rw [if_pos h1]
    exact hst
  · rw [if_neg h1]
    have h1a : el ≠ [] := fun h => h1 (Or.inl h)
    have h1b : el ≠ ['.'] := fun h => h1 (Or.inr h)
    by_cases h2 : el = ['.', '.']
    · rw [if_pos h2]
      cases st with
      | nil =>
        cases r
        · simp [NormalStack, h2]
        · simp [NormalStack]
      | cons top rest =>
        simp only
        by_cases h3 : top = ['.', '.']
        · rw [if_pos h3]
          cases r
          · simp only [Bool.false_eq_true, if_false]
            exact ⟨h1a, h1b, hel, fun _ => ⟨rfl, by simp [h3]⟩, hst⟩
          · simp only [if_true]
            exact hst
        · rw [if_neg h3]
          exact hst.2.2.2.2
    · rw [if_neg h2]
      exact ⟨h1a, h1b, hel, fun h => absurd h h2, hst⟩

theorem foldl_cleanStep_normal (r : Bool) (xs : List (List Char)) (st : List (List Char))
    (hxs : ∀ el ∈ xs, '/' ∉ el) (hst : NormalStack r st) :
    NormalStack r (xs.foldl (cleanStep r) st) := by
  induction xs generalizing st with
  | nil => exact hst
  | cons x rest ih =>
    simp only [List.foldl_cons]
    apply ih
    · intro el hel
      exact hxs el (by simp [hel])
    · exact cleanStep_normal r st x hst (hxs x (by simp))

theorem cleanStep_keeps (r : Bool) (st : List (List Char)) (el : List Char)
    (h : NormalStack r (el :: st)) : cleanStep r st el = el :: st := by
  obtain ⟨h0, h1, _, h2, _⟩ := h
  unfold cleanStep
  rw [if_neg (by simp [h0, h1])]
  by_cases hd : el = ['.', '.']
  · rw [if_pos hd]
    obtain ⟨hr, htop⟩ := h2 hd
    subst hr
    cases st with
    | nil => simp
    | cons top rest =>
      have := htop top (by simp)
      simp [this]
  · rw [if_neg hd]

theorem foldl_cleanStep_reverse (r : Bool) (st : List (List Char))
    (h : NormalStack r st) : st.reverse.foldl (cleanStep r) [] = st := by
  induction st with
  | nil => rfl
  | cons el rest ih =>
    rw [List.reverse_cons, List.foldl_append, ih h.2.2.2.2]
    simp only [List.foldl_cons, List.foldl_nil]
    exact cleanStep_keeps r rest el h

theorem joinSep_snoc (cs : List (List Char)) (n : List Char) (hcs : cs ≠ []) :
    joinSep (cs ++ [n]) = joinSep cs ++ '/' :: n := by
  induction cs with
  | nil => exact absurd rfl hcs
  | cons x rest ih =>
    cases rest with
    | nil => simp [joinSep]
    | cons y ys =>
      have hgoal : joinSep (x :: y :: ys ++ [n]) = x ++ '/' :: joinSep (y :: ys ++ [n]) := rfl
      have hgoal2 : joinSep (x :: y :: ys) = x ++ '/' :: joinSep (y :: ys) := rfl
      rw [hgoal, hgoal2, ih (by simp)]
      simp

theorem splitSep_joinSep (cs : List (List Char)) (hcs : cs ≠ [])
    (hsep : ∀ c ∈ cs, '/' ∉ c) : splitSep (joinSep cs) = cs := by
  induction cs with
  | nil => exact absurd rfl hcs
  | cons x rest ih =>
    cases rest with
    | nil => simpa [joinSep] using splitSep_of_no_sep x (hsep x (by simp))
    | cons y ys =>
      have hgoal : joinSep (x :: y :: ys) = x ++ '/' :: joinSep (y :: ys) := rfl
      rw [hgoal, splitSep_append_sep, splitSep_of_no_sep x (hsep x (by simp)),
        ih (by simp) (fun c hc => hsep c (by simp [hc]))]
      rfl

theorem NormalStack_mem (r : Bool) (st : List (List Char)) (h : NormalStack r st) :
    ∀ c ∈ st, c ≠ [] ∧ '/' ∉ c := by
  induction st with
  | nil => simp
  | cons el rest ih =>
    intro c hc
    simp only [List.mem_cons] at hc
    rcases hc with hc | hc
    · rw [hc]
      exact ⟨h.1, h.2.2.1⟩
    · exact ih h.2.2.2.2 c hc

/-- The first character of a joined path is the first character of its
first element. -/
theorem joinSep_head (a : Char) (as : List Char) (rest : List (List Char)) :
    ∃ tl, joinSep ((a :: as) :: rest) = a :: tl := by
  cases rest with
  | nil => exact ⟨as, rfl⟩
  | cons y ys => exact ⟨as ++ '/' :: joinSep (y :: ys), rfl⟩

theorem render_cons_cons (r : Bool) (n nm : List Char) (st : List (List Char))
    (h : NormalStack r (nm :: st)) :
    render r (n :: nm :: st) = render r (nm :: st) ++ '/' :: n := by
  have hne : (nm :: st).reverse ≠ [] := by simp
  have hbody : joinSep (nm :: st).reverse ≠ [] := by
    have hmem := NormalStack_mem r (nm :: st) h
    cases hrev : (nm :: st).reverse with
    | nil => exact absurd hrev hne
    | cons first rest =>
      have hf := hmem first (List.mem_reverse.mp (by rw [hrev]; simp))
      cases first with
      | nil => exact absurd rfl hf.1
      | cons a as =>
        obtain ⟨tl, htl⟩ := joinSep_head a as rest
        rw [htl]
        simp
  have hsnoc : joinSep ((n :: nm :: st).reverse) = joinSep (nm :: st).reverse ++ '/' :: n := by
    rw [List.reverse_cons n, joinSep_snoc _ _ hne]
  unfold render
  simp only [hsnoc]
  cases r
  · simp only [Bool.false_eq_true, if_false]
    rw [if_neg hbody, if_neg (by simp)]
  · simp

/-- Cleaning a clean path (one that ends in a name) to which a separator
and one more element are appended amounts to processing that element. -/
theorem cleanChars_render_append (r : Bool) (nm : List Char) (st : List (List Char))
    (h : NormalStack r (nm :: st)) (n : List Char) (hn : '/' ∉ n) :
    cleanChars (render r (nm :: st) ++ '/' :: n) = render r (cleanStep r (nm :: st) n) := by
  have hne : (nm :: st).reverse ≠ [] := by simp
  have hmem := NormalStack_mem r (nm :: st) h
  have hsep : ∀ c ∈ (nm :: st).reverse, '/' ∉ c := by
    intro c hc
    exact (hmem c (List.mem_reverse.mp hc)).2
  have hsplit : splitSep (joinSep (nm :: st).reverse ++ '/' :: n) =
      (nm :: st).reverse ++ [n] := by
    rw [splitSep_append_sep, splitSep_joinSep _ hne hsep, splitSep_of_no_sep n hn]
  have hfold : ((nm :: st).reverse ++ [n]).foldl (cleanStep r) [] =
      cleanStep r (nm :: st) n := by
    rw [List.foldl_append, foldl_cleanStep_reverse r (nm :: st) h]
    rfl
  cases hrev : (nm :: st).reverse with
  | nil => exact absurd hrev hne
  | cons first rest =>
    have hf := hmem first (List.mem_reverse.mp (by rw [hrev]; simp))
    cases first with
    | nil => exact absurd rfl hf.1
    | cons a as =>
      obtain ⟨tl, htl⟩ := joinSep_head a as rest
      have ha : a ≠ '/' := fun e => hf.2 (by simp [e])
      rw [hrev] at hsplit hfold
      cases r
      · have hR : render false (nm :: st) = a :: tl := by
          unfold render
          rw [hrev, htl]
          simp
        rw [hR, List.cons_append, cleanChars_cons]
        have hd : decide (a = '/') = false := by simp [ha]
        rw [hd, ← List.cons_append, ← htl, hsplit, hfold]
      · have hR : render true (nm :: st) = '/' :: a :: tl := by
          unfold render
          rw [hrev, htl]
          simp
        rw [hR, List.cons_append, cleanChars_cons]
        have hd : decide ('/' = '/') = true := by simp
        have hs : splitSep ('/' :: (a :: tl ++ '/' :: n)) =
            [] :: splitSep (a :: tl ++ '/' :: n) := by
          simp [splitSep]
        rw [hd, hs, ← htl, hsplit, List.foldl_cons]
        have h0 : cleanStep true [] [] = [] := by simp [cleanStep]
        rw [h0, hfold]

/-- The shape of `filepath.Join(dir, name)`: the elements kept from `dir`,
then `name` processed as one more element. -/
theorem Join_two_render (dir : String) :
    ∃ r st, NormalStack r st ∧
      ∀ n : List Char, '/' ∉ n → n ≠ [] →
        (Join [dir, ⟨n⟩]).data = render r (cleanStep r st n) := by
  by_cases hd : dir = ""
  · refine ⟨false, [], trivial, ?_⟩
    intro n hn hne
    have hname : (⟨n⟩ : String) ≠ "" := by
      intro e
      apply hne
      have := congrArg String.data e
      simpa using this
    simp only [Join, hd, if_true, hname, if_false, Clean, List.map, joinSep]
    cases n with
    | nil => exact absurd rfl hne
    | cons c cs =>
      have hc : c ≠ '/' := fun e => hn (by simp [e])
      have hdec : decide (c = '/') = false := by simp [hc]
      rw [cleanChars_cons, splitSep_of_no_sep _ hn, hdec]
      rfl
  · cases hdata : dir.data with
    | nil =>
      exfalso
      apply hd
      cases dir
      simp only at hdata
      rw [hdata]
    | cons c cs =>
      refine ⟨decide (c = '/'), (splitSep (c :: cs)).foldl (cleanStep (decide (c = '/'))) [],
        ?_, ?_⟩
      · exact foldl_cleanStep_normal _ _ _ (splitSep_no_sep _) trivial
      · intro n hn _
        simp only [Join, hd, if_false, Clean, List.map, joinSep, hdata]
        rw [List.cons_append, cleanChars_cons, ← List.cons_append, splitSep_append_sep,
          splitSep_of_no_sep n hn, List.foldl_append]
        rfl

/-! ## Decimal numerals -/

theorem digitChar_toNat (d : Nat) (h : d < 10) : (Nat.digitChar d).toNat - 48 = d := by
  interval_cases d <;> rfl

theorem digitChar_ne_sep (d : Nat) (h : d < 10) : Nat.digitChar d ≠ '/' := by
  interval_cases d <;> decide

theorem toDigitsCore_value (fuel : Nat) :
    ∀ (n : Nat) (ds : List Char), n < fuel →
      (Nat.toDigitsCore 10 fuel n ds).foldl (fun acc c => 10 * acc + (c.toNat - 48)) 0 =
        ds.foldl (fun acc c => 10 * acc + (c.toNat - 48)) n := by
  induction fuel with
  | zero => intro n ds h; omega
  | succ fuel ih =>
    intro n ds h
    have hmod : n % 10 < 10 := Nat.mod_lt _ (by omega)
    unfold Nat.toDigitsCore
    simp only
    by_cases h0 : n / 10 = 0
    · rw [if_pos h0]
      simp only [List.foldl_cons]
      rw [digitChar_toNat _ hmod]
      have : n % 10 = n := by omega
      simp [this]
    · rw [if_neg h0]
      rw [ih (n / 10) _ (by omega)]
      simp only [List.foldl_cons]
      rw [digitChar_toNat _ hmod]
      have : 10 * (n / 10) + n % 10 = n := Nat.div_add_mod n 10
      rw [this]

theorem toDigitsCore_no_sep (fuel : Nat) :
    ∀ (n : Nat) (ds : List Char), '/' ∉ ds → '/' ∉ Nat.toDigitsCore 10 fuel n ds := by
  induction fuel with
  | zero => intro n ds h; simpa [Nat.toDigitsCore] using h
  | succ fuel ih =>
    intro n ds h
    have hmod : n % 10 < 10 := Nat.mod_lt _ (by omega)
    have hd := digitChar_ne_sep _ hmod
    have hcons : '/' ∉ Nat.digitChar (n % 10) :: ds := by
      intro hm
      simp only [List.mem_cons] at hm
      rcases hm with hm | hm
      · exact hd hm.symm
      · exact h hm
    unfold Nat.toDigitsCore
    simp only
    by_cases h0 : n / 10 = 0
    · rw [if_pos h0]
      exact hcons
    · rw [if_neg h0]
      exact ih _ _ hcons

theorem decimalValue_toString (n : Nat) : decimalValue (toString n).data = n := by
  have h := toDigitsCore_value (n + 1) n [] (by omega)
  simpa [decimalValue, Nat.toDigits] using h

theorem toString_no_sep (n : Nat) : '/' ∉ (toString n).data := by
  have h := toDigitsCore_no_sep (n + 1) n [] (by simp)
  simpa [Nat.toDigits] using h

theorem toString_nat_injective (a b : Nat) (h : toString a = toString b) : a = b := by
  rw [← decimalValue_toString a, ← decimalValue_toString b, h]

/-! ## The workspace path and the Java launcher (C19, C20) -/

theorem render_top_injective (r : Bool) (st : List (List Char)) (n1 n2 : List Char)
    (hst : NormalStack r st) (h1 : n1 ≠ []) (h2 : n2 ≠ [])
    (h : render r (n1 :: st) = render r (n2 :: st)) : n1 = n2 := by
  cases st with
  | nil =>
    cases r
    · simpa [render, joinSep, h1, h2] using h
    · simpa [render, joinSep] using h
  | cons nm rest =>
    rw [render_cons_cons r n1 nm rest hst, render_cons_cons r n2 nm rest hst] at h
    have := List.append_cancel_left h
    simpa using this

theorem render_length_pos (r : Bool) (nm : List Char) (st : List (List Char))
    (h : NormalStack r (nm :: st)) :
    0 < (render r (nm :: st)).length := by
  cases st with
  | nil =>
    have hnm := h.1
    cases r
    · simp only [render, List.reverse_cons, List.reverse_nil, List.nil_append, joinSep,
        Bool.false_eq_true, if_false, hnm]
      exact List.length_pos.mpr hnm
    · simp [render]
  | cons nm2 rest =>
    rw [render_cons_cons r nm nm2 rest h.2.2.2.2]
    simp

theorem workspaceName_data (id : Nat) :
    ("submission_" ++ toString id).data =
      ['s', 'u', 'b', 'm', 'i', 's', 's', 'i', 'o', 'n', '_'] ++ (toString id).data := by
  rw [String.data_append]

theorem workspaceName_normal (r : Bool) (st : List (List Char)) (id : Nat)
    (hst : NormalStack r st) :
    NormalStack r (("submission_" ++ toString id).data :: st) := by
  have hsep : '/' ∉ ("submission_" ++ toString id).data := by
    rw [workspaceName_data]
    intro h
    rcases List.mem_append.mp h with h | h
    · revert h
      decide
    · exact toString_no_sep id h
  refine ⟨?_, ?_, hsep, ?_, hst⟩
  · rw [workspaceName_data]
    simp
  · rw [workspaceName_data]
    simp
  · intro h
    rw [workspaceName_data] at h
    simp at h

/-- The workspace directory is the clean path made of the elements kept
from the work directory followed by the element `submission_<ID>`. -/
theorem submissionDir_render (e : Evaluator) :
    ∃ r st, NormalStack r st ∧
      ∀ s : Submission,
        (submissionDir e s).data = render r (("submission_" ++ toString s.ID).data :: st) := by
  obtain ⟨r, st, hst, hjoin⟩ := Join_two_render e.workDir
  refine ⟨r, st, hst, ?_⟩
  intro s
  have hn := workspaceName_normal r st s.ID hst
  have h := hjoin ("submission_" ++ toString s.ID).data hn.2.2.1 hn.1
  rw [cleanStep_keeps r st _ hn] at h
  exact h

theorem codeFile_java_data (e : Evaluator) (s : Submission) (hl : s.Language = "java") :
    (codeFile e s).data =
      (submissionDir e s).data ++ ['/', 'M', 'a', 'i', 'n', '.', 'j', 'a', 'v', 'a'] := by
  obtain ⟨r, st, hst, hdir⟩ := submissionDir_render e
  have hn := workspaceName_normal r st s.ID hst
  have hD := hdir s
  have hne : submissionDir e s ≠ "" := by
    intro h
    rw [h] at hD
    have hlen := congrArg List.length hD
    have hpos := render_length_pos r _ st hn
    rw [← hlen] at hpos
    simp at hpos
  have hmain : NormalStack r (['M', 'a', 'i', 'n', '.', 'j', 'a', 'v', 'a'] ::
      ("submission_" ++ toString s.ID).data :: st) :=
    ⟨by simp, by simp, by decide, by simp, hn⟩
  simp only [codeFile, hl, getSourceFileName, Join, hne, if_false, Clean, List.map, joinSep]
  rw [hD, cleanChars_render_append r _ st hn _ (by decide),
    cleanStep_keeps r _ _ hmain, render_cons_cons r _ _ st hn]

theorem Dir_codeFile_java (e : Evaluator) (s : Submission) (hl : s.Language = "java") :
    Dir (codeFile e s) = submissionDir e s := by
  obtain ⟨r, st, hst, hdir⟩ := submissionDir_render e
  have hn := workspaceName_normal r st s.ID hst
  have hD := hdir s
  have hskip : cleanStep r (("submission_" ++ toString s.ID).data :: st) [] =
      ("submission_" ++ toString s.ID).data :: st := by
    simp [cleanStep]
  have hclean : cleanChars ((submissionDir e s).data ++ ['/']) = (submissionDir e s).data := by
    rw [hD, cleanChars_render_append r _ st hn [] (by simp), hskip]
  have hdrop : ((codeFile e s).data.reverse.dropWhile (fun c => decide (c ≠ '/'))).reverse =
      (submissionDir e s).data ++ ['/'] := by
    rw [codeFile_java_data e s hl, List.reverse_append]
    have hd : (['/', 'M', 'a', 'i', 'n', '.', 'j', 'a', 'v', 'a'].reverse ++
        (submissionDir e s).data.reverse).dropWhile (fun c => decide (c ≠ '/')) =
        '/' :: (submissionDir e s).data.reverse := by
      simp only [List.reverse_cons, List.reverse_nil, List.nil_append, List.cons_append,
        List.dropWhile]
      rfl
    rw [hd]
    simp
  unfold Dir Clean
  simp only [hdrop, hclean]

theorem Base_stem_java (e : Evaluator) (s : Submission) :
    Base ⟨(submissionDir e s).data ++ ['/', 'M', 'a', 'i', 'n']⟩ = "Main" := by
  have hne : (⟨(submissionDir e s).data ++ ['/', 'M', 'a', 'i', 'n']⟩ : String) ≠ "" := by
    intro h
    have h0 : (submissionDir e s).data ++ ['/', 'M', 'a', 'i', 'n'] = ([] : List Char) :=
      congrArg String.data h
    simp at h0
  unfold Base
  rw [if_neg hne]
  simp [stripTrailingSep, lastElement, List.dropWhile, List.takeWhile]

theorem sliceTo_codeFile_java (e : Evaluator) (s : Submission) (hl : s.Language = "java") :
    sliceTo (codeFile e s) (((codeFile e s).length : Int) - 5) =
      .ok ⟨(submissionDir e s).data ++ ['/', 'M', 'a', 'i', 'n']⟩ := by
  have hdata := codeFile_java_data e s hl
  have hlen : (codeFile e s).length = (submissionDir e s).data.length + 10 := by
    rw [String.length, hdata]
    simp
  unfold sliceTo
  rw [if_neg (by omega)]
  have hn : (((codeFile e s).length : Int) - 5).toNat = (submissionDir e s).data.length + 5 := by
    omega
  rw [hn, hdata, List.take_append_eq_append_take, List.take_of_length_le (by omega)]
  have h5 : (submissionDir e s).data.length + 5 - (submissionDir e s).data.length = 5 := by
    omega
  rw [h5]
  rfl

/-- The command line for a Java submission in its workspace. -/
theorem command_java (e : Evaluator) (s : Submission) (hl : s.Language = "java") :
    command s.Language (codeFile e s) =
      .ok (some ["java", "-cp", submissionDir e s, "Main"]) := by
  have h1 := sliceTo_codeFile_java e s hl
  have h2 := Dir_codeFile_java e s hl
  have h3 := Base_stem_java e s
  rw [hl]
  simp only [command, h1, h2, h3]

theorem submissionDir_injective (e : Evaluator) (s s' : Submission)
    (h : submissionDir e s = submissionDir e s') : s.ID = s'.ID := by
  obtain ⟨r, st, hst, hdir⟩ := submissionDir_render e
  have h1 := hdir s
  have h2 := hdir s'
  rw [h] at h1
  rw [h1] at h2
  have hn1 := workspaceName_normal r st s.ID hst
  have hn2 := workspaceName_normal r st s'.ID hst
  have hname := render_top_injective r st _ _ hst hn1.1 hn2.1 h2
  rw [workspaceName_data, workspaceName_data] at hname
  have hdigits := List.append_cancel_left hname
  have : toString s.ID = toString s'.ID := String.ext hdigits
  exact toString_nat_injective _ _ this

/-- C19: the workspace directory that `Evaluate` creates and removes is
determined by the work directory and the identifier of the submission alone,
and for one work directory it is injective in the identifier: submissions
with different identifiers get different workspace directories. -/
theorem submissionDir_determined_and_injective :
    (∀ (env : Env) (e : Evaluator) (w : World) (s : Submission),
      (Evaluate env e w s).world.fsLog =
        w.fsLog ++ [.mkdirAll (submissionDir e s), .writeFile (codeFile e s) s.Code,
                    .removeAll (submissionDir e s)]) ∧
    (∀ (e e' : Evaluator) (s s' : Submission),
      e.workDir = e'.workDir → s.ID = s'.ID → submissionDir e s = submissionDir e' s') ∧
    (∀ (e : Evaluator) (s s' : Submission),
      s.ID ≠ s'.ID → submissionDir e s ≠ submissionDir e s') := by
  refine ⟨Evaluate_fsLog, ?_, ?_⟩
  · intro e e' s s' hw hid
    simp only [submissionDir, hw, hid]
  · intro e s s' hne h
    exact hne (submissionDir_injective e s s' h)

/-- C19 at the submissions 7 and 8 in `/tmp/onlinejudge`. -/
theorem submissionDir_determined_and_injective_witness :
    pySubmission.ID ≠ cppSubmission.ID ∧
    submissionDir judge pySubmission ≠ submissionDir judge cppSubmission ∧
    judge.workDir = judge.workDir ∧ pySubmission.ID = rustSubmission.ID ∧
    submissionDir judge pySubmission = submissionDir judge rustSubmission ∧
    submissionDir judge pySubmission = "/tmp/onlinejudge/submission_7" ∧
    submissionDir judge cppSubmission = "/tmp/onlinejudge/submission_8" :=
  ⟨by decide,
    submissionDir_determined_and_injective.2.2 judge pySubmission cppSubmission (by decide),
    rfl, rfl,
    submissionDir_determined_and_injective.2.1 judge judge pySubmission rustSubmission rfl rfl,
    by decide, by decide⟩

/-- C20: for a Java submission the path of the source file is the workspace
directory followed by `/Main.java`, so the slice that drops its last five
characters is in bounds; the command line built by `runTestCase` is `java
-cp` with the workspace directory as class path and `Main` as class name;
every process `Evaluate` starts for the submission has this command line,
and `Evaluate` never panics on the slice. -/
theorem Evaluate_java_launcher (env : Env) (e : Evaluator) (w : World)
    (submission : Submission) (hl : submission.Language = "java") :
    (codeFile e submission).data =
      (submissionDir e submission).data ++ ['/', 'M', 'a', 'i', 'n', '.', 'j', 'a', 'v', 'a'] ∧
    sliceTo (codeFile e submission) (((codeFile e submission).length : Int) - 5) =
      .ok ⟨(submissionDir e submission).data ++ ['/', 'M', 'a', 'i', 'n']⟩ ∧
    command submission.Language (codeFile e submission) =
      .ok (some ["java", "-cp", submissionDir e submission, "Main"]) ∧
    (∀ c ∈ (Evaluate env e w submission).world.started.drop w.started.length,
      c.1 = ["java", "-cp", submissionDir e submission, "Main"]) ∧
    (Evaluate env e w submission).ret ≠ .error "runtime error: slice bounds out of range" := by
  have hcmd := command_java e submission hl
  refine ⟨codeFile_java_data e submission hl, sliceTo_codeFile_java e submission hl, hcmd, ?_⟩
  cases hwrite : env.writeErr (codeFile e submission) submission.Code with
  | some err =>
    obtain ⟨hret, _, _, hst, _⟩ := Evaluate_write_failed env e w submission err hwrite
    rw [hst, hret]
    refine ⟨by simp, ?_⟩
    intro h
    cases h
  | none =>
    cases hcompile : (compile env w submission.Language (codeFile e submission)).2 with
    | some err =>
      obtain ⟨hret, _, _, hst, _⟩ :=
        Evaluate_compile_failed env e w submission err hwrite hcompile
      rw [hst, hret]
      refine ⟨by simp, ?_⟩
      intro h
      cases h
    | none =>
      obtain ⟨argv, hcmd', _, hst, hnone, hsome⟩ :=
        Evaluate_compiled env e w submission hwrite hcompile
      rw [hcmd] at hcmd'
      injection hcmd' with hcmd'
      injection hcmd' with hcmd'
      subst hcmd'
      refine ⟨?_, ?_⟩
      · intro c hc
        rw [hst, List.drop_left] at hc
        simp only [List.mem_map] at hc
        obtain ⟨p, _, hp⟩ := hc
        rw [← hp]
      · cases hlast : ((judged env submission
            ["java", "-cp", submissionDir e submission, "Main"] w.started.length
            (findTestCases w submission.ProblemID)).map (resultRow submission)).getLast? with
        | none =>
          rw [(hnone hlast).1]
          intro h
          injection h with h
          revert h
          decide
        | some last =>
          rw [(hsome last hlast).1]
          intro h
          cases h

/-- C20 at a Java submission with identifier 7 in `/tmp/onlinejudge`, judged
on the test cases A and B. -/
theorem Evaluate_java_launcher_witness :
    javaSubmission.Language = "java" ∧
    codeFile judge javaSubmission = "/tmp/onlinejudge/submission_7/Main.java" ∧
    command javaSubmission.Language (codeFile judge javaSubmission) =
      .ok (some ["java", "-cp", submissionDir judge javaSubmission, "Main"]) ∧
    (Evaluate envABC judge worldABC javaSubmission).world.started =
      [(["java", "-cp", "/tmp/onlinejudge/submission_7", "Main"], "3 4\n"),
       (["java", "-cp", "/tmp/onlinejudge/submission_7", "Main"], "5 2\n")] :=
  ⟨rfl, by decide,
    (Evaluate_java_launcher envABC judge worldABC javaSubmission rfl).2.2.1, by decide⟩

/-! ## From the request to the evaluator (C15) -/

/-- C15, the code at a failing input: user 3 submits Python code for
problem 1, whose stored time limit is 1000 ms. `Submit` looks the problem up
only to check that it exists and never copies it onto the submission, so the
message published carries a problem with time limit 0; the subscriber hands
the decoded record to `Evaluate`, and on a timeout the result reports 0 ms,
not the stored 1000 ms. -/
theorem Submit_drops_stored_time_limit :
    (firstProblem intakeOne.problems 1).map (fun p => p.TimeLimit) = some 1000 ∧
    Submit intakeOne requestLoop =
      (201, some { id := 12, user_id := 3, problem_id := 1, language := "python",
                   code := "while True: pass", status := "pending",
                   problem := { ID := 0, TimeLimit := 0, MemoryLimit := 0 } }) ∧
    (unmarshal { id := 12, user_id := 3, problem_id := 1, language := "python",
                 code := "while True: pass", status := "pending" }).Problem.TimeLimit = 0 ∧
    (SubscribeToSubmissions envLoops judge worldABC
        { id := 12, user_id := 3, problem_id := 1, language := "python",
          code := "while True: pass", status := "pending" }).world.results =
      [{ SubmissionID := 12, TestCaseID := 1, Status := "time_limit", TimeUsed := 0,
         MemoryUsed := 0, Error := "Time limit exceeded" }] ∧
    (SubscribeToSubmissions envLoops judge worldABC
        { id := 12, user_id := 3, problem_id := 1, language := "python",
          code := "while True: pass", status := "pending" }).submission.TimeUsed = 0 := by
  refine ⟨by decide, by decide, rfl, by decide, by decide⟩

end OnlineJudge
